import Mathlib

/-!
Verification of the Little Man Computer core (`lmc.js`).

The repository contains three variants of an `LMC` class.  This file embeds
the parts that the claims are about:

* the execution engine of the main variant (registers, mailboxes, the
  decoding performed by `disassemble`/`executable`, the instruction methods
  `0`/`100`/…/`922`, `error`, `reset` and `step`);
* the per-value assembler/disassembler pair `assemble`/`disassemble` of the
  main variant;
* the two-pass assembler `load` of the second variant (the one that returns
  on the first diagnostic), together with its tokenizer.

Numbers are modelled as `Nat`/`Int` with the explicit wrap-around helper
`intmod` that the source uses; mailboxes are a total function from
addresses to values (the source creates missing mailboxes holding `0` on
demand via `ensureMailbox`, so absent cells behave as cells holding `0`).
The inbox/outbox callbacks are modelled by an input queue and an output
list carried in the machine state.
-/

namespace LMCSpec

/-- One entry of the instruction table: mnemonic text, canonical opcode
(`none` for the `DAT` pseudo-instruction, whose `opcode` is `null` in the
source), and operand arity (`-1` optional, `0` none, `1` required). -/
structure InstrDesc where
  mnemonic : String
  opcode : Option Nat
  arg : Int
deriving DecidableEq

def datD : InstrDesc := ⟨"DAT", none, -1⟩

def cobD : InstrDesc := ⟨"COB", some 0, 0⟩

def hltD : InstrDesc := ⟨"HLT", some 0, 0⟩

def addD : InstrDesc := ⟨"ADD", some 100, 1⟩

def subD : InstrDesc := ⟨"SUB", some 200, 1⟩

def stoD : InstrDesc := ⟨"STO", some 300, 1⟩

def staD : InstrDesc := ⟨"STA", some 300, 1⟩

def ldaD : InstrDesc := ⟨"LDA", some 500, 1⟩

def brD : InstrDesc := ⟨"BR", some 600, 1⟩

def braD : InstrDesc := ⟨"BRA", some 600, 1⟩

def brzD : InstrDesc := ⟨"BRZ", some 700, 1⟩

def brpD : InstrDesc := ⟨"BRP", some 800, 1⟩

def inD : InstrDesc := ⟨"IN", some 901, 0⟩

def inpD : InstrDesc := ⟨"INP", some 901, 0⟩

def outD : InstrDesc := ⟨"OUT", some 902, 0⟩

def otcD : InstrDesc := ⟨"OTC", some 922, 0⟩

/-- `LMC.instructions`: lookup of an instruction descriptor by opcode.
The source builds this with `Object.fromEntries` over the instruction
list, so for duplicated opcodes the later entry wins (HLT over COB, STA
over STO, BRA over BR, INP over IN); `DAT` has opcode `null` and is not
reachable by a numeric key. -/
def instructions (v : Nat) : Option InstrDesc :=
  if v = 0 then some hltD
  else if v = 100 then some addD
  else if v = 200 then some subD
  else if v = 300 then some staD
  else if v = 500 then some ldaD
  else if v = 600 then some braD
  else if v = 700 then some brzD
  else if v = 800 then some brpD
  else if v = 901 then some inpD
  else if v = 902 then some outD
  else if v = 922 then some otcD
  else none

/-- `LMC.mnemonics`: lookup of an instruction descriptor by (upper-case)
mnemonic name.  Both variants of the class use the same sixteen-entry
mapping. -/
def mnemonicLookup (m : String) : Option InstrDesc :=
  if m = "DAT" then some datD
  else if m = "COB" then some cobD
  else if m = "HLT" then some hltD
  else if m = "ADD" then some addD
  else if m = "SUB" then some subD
  else if m = "STO" then some stoD
  else if m = "STA" then some staD
  else if m = "LDA" then some ldaD
  else if m = "BR" then some brD
  else if m = "BRA" then some braD
  else if m = "BRZ" then some brzD
  else if m = "BRP" then some brpD
  else if m = "IN" then some inD
  else if m = "INP" then some inpD
  else if m = "OUT" then some outD
  else if m = "OTC" then some otcD
  else none

/-- The behavioural policy switches of the engine (`this.options`), all
defaulting to `true` as in the constructor. -/
structure Options where
  setFlagOnOverflow : Bool := true
  zeroNeedsClearedFlag : Bool := true
  stopWhenUndefined : Bool := true
  forbidProgramCounterOverflow : Bool := true
  strictOpcode : Bool := true
deriving DecidableEq

def defaultOptions : Options := {}

/-- A runtime diagnostic (`this.err`).  The source stores the source line
of the mailbox the program counter points at after the error handler ran
(`this.mailboxes[this.programCounter].lineNo`); mailboxes are identified
here by their address, so the diagnostic records that address. -/
structure Err where
  lineNo : Nat
  msg : String
deriving DecidableEq

/-- A value sent to the outbox: `OUT` emits the number itself, `OTC` its
character rendering (`String.fromCharCode`). -/
inductive Output where
  | num (n : Nat)
  | chr (n : Nat)
deriving DecidableEq

/-- The machine state of the main `LMC` variant: registers, the
`programCounterOverflowed` latch maintained by the program-counter setter,
the accumulator-reliability bit `isAccUndefined`, the mailbox values, the
diagnostic, and the modelled input/output ports. -/
structure LMCState where
  accumulator : Nat
  flag : Bool
  isAccUndefined : Bool
  programCounter : Nat
  programCounterOverflowed : Bool
  mailboxValues : Nat → Nat
  err : Option Err
  inputs : List Nat
  outputs : List Output
  options : Options

/-- `LMC.intmod(val, end)`: `(Math.floor(val) % end + end) % end || 0`.
JavaScript `%` keeps the sign of the dividend, which the source repairs by
adding `end` and reducing again; with Lean's Euclidean `%` on `Int` the
same expression computes the same non-negative representative. -/
def intmod (val : Int) (e : Nat) : Nat :=
  (((val % (e : Int)) + (e : Int)) % (e : Int)).toNat

/-- The accumulator setter: used by LDA and INP, it clears the negative
flag and restores reliability before storing the wrapped value. -/
def setAccumulator (s : LMCState) (value : Int) : LMCState :=
  { s with flag := false, isAccUndefined := false, accumulator := intmod value 1000 }

/-- The program-counter setter: wraps modulo 100 and records in
`programCounterOverflowed` whether wrapping changed the value. -/
def setPC (s : LMCState) (next : Int) : LMCState :=
  { s with programCounter := intmod next 100,
           programCounterOverflowed := decide ((intmod next 100 : Int) ≠ next) }

/-- `getMailbox`: addresses wrap modulo 100; missing mailboxes are created
holding `0`, which the total `mailboxValues` map models directly. -/
def getMailbox (s : LMCState) (address : Nat) : Nat :=
  s.mailboxValues (address % 100)

/-- `setMailbox`: the address wraps modulo 100 and the mailbox value
setter wraps the stored value with `intmod`. -/
def setMailbox (s : LMCState) (address : Nat) (value : Int) : LMCState :=
  { s with mailboxValues :=
      fun a => if a = address % 100 then intmod value 1000 else s.mailboxValues a }

def unreliableMsg : String := "Accumulator does not have reliable value."

def overflowMsg : String := "Program counter exceeded 99."

def invalidMsg (v : Nat) : String := "Invalid instruction " ++ toString v

/-- `LMC.error(msg)`: runs the HLT handler (decrementing the program
counter) and then records the diagnostic at the resulting counter. -/
def errorOp (s : LMCState) (msg : String) : LMCState :=
  let s1 := setPC s ((s.programCounter : Int) - 1)
  { s1 with err := some ⟨s1.programCounter, msg⟩ }

/-- The condition under which `failWhenUndefined` raises an error. -/
def failsWhenUndefined (s : LMCState) : Bool :=
  s.options.stopWhenUndefined && s.isAccUndefined

/-- `LMC.addValue(delta)`: shared body of ADD and SUB.  The flag is only
ever set (underflow always, overflow subject to `setFlagOnOverflow`), the
reliability bit is cleared on any out-of-range result, and the wrapped
value is stored directly into `_accumulator`, bypassing the flag-clearing
setter. -/
def addValue (s : LMCState) (delta : Int) : LMCState :=
  if failsWhenUndefined s then errorOp s unreliableMsg
  else
    let value : Int := (s.accumulator : Int) + delta
    let s1 :=
      if value < 0 ∨ (value > 999 ∧ s.options.setFlagOnOverflow = true) then
        { s with flag := true }
      else s
    let s2 :=
      if value < 0 ∨ value > 999 then { s1 with isAccUndefined := true } else s1
    { s2 with accumulator := intmod value 1000 }

/-- Instruction method `0` (HLT): undo the pre-increment of the program
counter. -/
def instrHLT (s : LMCState) : LMCState :=
  setPC s ((s.programCounter : Int) - 1)

/-- Instruction method `100` (ADD). -/
def instrADD (s : LMCState) (v : Nat) : LMCState :=
  addValue s (getMailbox s v : Int)

/-- Instruction method `200` (SUB). -/
def instrSUB (s : LMCState) (v : Nat) : LMCState :=
  addValue s (-(getMailbox s v : Int))

/-- Instruction method `300` (STA). -/
def instrSTA (s : LMCState) (v : Nat) : LMCState :=
  if failsWhenUndefined s then errorOp s unreliableMsg
  else setMailbox s v (s.accumulator : Int)

/-- Instruction method `500` (LDA). -/
def instrLDA (s : LMCState) (v : Nat) : LMCState :=
  setAccumulator s (getMailbox s v : Int)

/-- Instruction method `600` (BRA): the counter is set to the low two
digits of the instruction. -/
def instrBRA (s : LMCState) (v : Nat) : LMCState :=
  setPC s ((v % 100 : Nat) : Int)

/-- Instruction method `700` (BRZ): policy-gated on a reliable
accumulator; branches when the accumulator is zero and, under
`zeroNeedsClearedFlag`, the flag is clear. -/
def instrBRZ (s : LMCState) (v : Nat) : LMCState :=
  if failsWhenUndefined s then errorOp s unreliableMsg
  else if s.accumulator = 0 ∧ ¬(s.options.zeroNeedsClearedFlag = true ∧ s.flag = true) then
    instrBRA s v
  else s

/-- Instruction method `800` (BRP): branches exactly when the flag is
clear; it consults neither the accumulator nor the reliability policy. -/
def instrBRP (s : LMCState) (v : Nat) : LMCState :=
  if s.flag then s else instrBRA s v

/-- Instruction method `901` (INP): with no input available it behaves
like HLT (the counter is rolled back and nothing else changes); with an
input value it behaves like LDA on that value. -/
def instrINP (s : LMCState) : LMCState :=
  match s.inputs with
  | [] => instrHLT s
  | x :: rest => { setAccumulator s (x : Int) with inputs := rest }

/-- Instruction method `902` (OUT). -/
def instrOUT (s : LMCState) : LMCState :=
  if failsWhenUndefined s then errorOp s unreliableMsg
  else { s with outputs := s.outputs ++ [Output.num s.accumulator] }

/-- Instruction method `922` (OTC). -/
def instrOTC (s : LMCState) : LMCState :=
  if failsWhenUndefined s then errorOp s unreliableMsg
  else { s with outputs := s.outputs ++ [Output.chr s.accumulator] }

/-- The descriptor-selection part of `LMC.disassemble(value, isCode)`:
an exact opcode match, else the hundreds group when that group is an
instruction taking an operand, else `DAT`; non-code cells are always
`DAT`. -/
def disassembleSyntax (v : Nat) (isCode : Bool) : InstrDesc :=
  let first := instructions v
  let second :=
    match instructions (v - v % 100) with
    | some syn => if syn.arg ≠ 0 then some syn else none
    | none => none
  if isCode then (first.orElse fun _ => second).getD datD else datD

/-- The `isSloppy` field computed by `disassemble`. -/
def isSloppyAt (opts : Options) (v : Nat) (isCode : Bool) : Bool :=
  let syn := disassembleSyntax v isCode
  isCode && (syn.arg == 0) && opts.strictOpcode && !(syn.opcode == some v)

/-- Dispatch on the opcode selected by the decoder: `this[opcode](value)`.
The final branch is unreachable because every opcode produced by the table
has a method. -/
def dispatch (s : LMCState) (op : Nat) (v : Nat) : LMCState :=
  if op = 0 then instrHLT s
  else if op = 100 then instrADD s v
  else if op = 200 then instrSUB s v
  else if op = 300 then instrSTA s v
  else if op = 500 then instrLDA s v
  else if op = 600 then instrBRA s v
  else if op = 700 then instrBRZ s v
  else if op = 800 then instrBRP s v
  else if op = 901 then instrINP s
  else if op = 902 then instrOUT s
  else if op = 922 then instrOTC s
  else s

/-- `LMC.step()`: fetch at the current counter, pre-increment the counter,
decode (via `executable()`, which forces `isCode` so the decode is
`disassemble(value, true)`), execute or raise an invalid-instruction
error, then raise the wraparound error if the counter setter recorded an
overflow and policy forbids it.  Returns the new state together with the
boolean `pc !== this._programCounter`.  The trailing
`ensureMailbox(..).executable()` call of the source only prepares
rendering state and changes no machine value. -/
def step (s : LMCState) : LMCState × Bool :=
  let pc := s.programCounter
  let s1 := setPC s ((pc : Int) + 1)
  let v := s1.mailboxValues (pc % 100)
  let syn := disassembleSyntax v true
  let s2 :=
    if syn.opcode = none ∨ isSloppyAt s1.options v true = true then errorOp s1 (invalidMsg v)
    else dispatch s1 (syn.opcode.getD 0) v
  let s3 :=
    if s2.programCounterOverflowed = true ∧ s2.options.forbidProgramCounterOverflow = true then
      errorOp s2 overflowMsg
    else s2
  (s3, decide (pc ≠ s3.programCounter))

/-- `LMC.reset()`: resets the program counter (through its setter) and
clears the diagnostic, leaving every other register and the mailboxes
untouched. -/
def reset (s : LMCState) : LMCState :=
  { setPC s 0 with err := none }

/-- `LMC.run()` with explicit fuel: `while (this.step()) {}`. -/
def run : Nat → LMCState → LMCState
  | 0, s => s
  | fuel + 1, s =>
    match step s with
    | (s1, true) => run fuel s1
    | (s1, false) => s1

/-- The machine state right after construction: zeroed registers, clear
flag, unreliable accumulator, empty mailboxes (absent cells read as `0`),
no diagnostic, and the supplied options. -/
def initialState (opts : Options) : LMCState :=
  { accumulator := 0, flag := false, isAccUndefined := true, programCounter := 0,
    programCounterOverflowed := false, mailboxValues := fun _ => 0, err := none,
    inputs := [], outputs := [], options := opts }

/-- The machine-state invariant of the spec: accumulator in range,
program counter in range, every mailbox value in range. -/
def machineInv (s : LMCState) : Prop :=
  s.accumulator ≤ 999 ∧ s.programCounter ≤ 99 ∧ ∀ a : Nat, s.mailboxValues a ≤ 999

/-! ### The per-value assembler/disassembler pair of the main variant -/

/-- An instruction argument as classified by `isNaN` in
`LMC.assemble`: absent (the empty string, which coerces to 0), a numeric
token, or a label token.  Genuine label tokens are never numeric since the
grammar rejects labels that start with a digit. -/
inductive Arg where
  | noA
  | num (n : Nat)
  | lab (x : String)
deriving DecidableEq

def upperStr (x : String) : String := String.mk (x.data.map Char.toUpper)

/-- `LMC.assemble(mnemonic, argument)` of the main variant: value =
`(mnemonics[mnemonic || "DAT"].opcode || 0)` plus the numeric argument or
the symbol-table entry (`|| 0`), together with the `isCode` and
`isReference` classification.  An unknown mnemonic would throw in the
source and is unreachable from the grammar; it is treated as `DAT`
here. -/
def assembleV1 (symLookup : String → Option Nat) (mnemonic : String) (argument : Arg) :
    Nat × Bool × Bool :=
  let mUp := upperStr mnemonic
  let key := if mUp = "" then "DAT" else mUp
  let syn0 := (mnemonicLookup key).getD datD
  let value : Nat := syn0.opcode.getD 0 +
    (match argument with
     | Arg.noA => 0
     | Arg.num n => n
     | Arg.lab x => (symLookup (upperStr x)).getD 0)
  let syn1 :=
    match instructions value with
    | some d => d
    | none =>
      match instructions (value - value % 100) with
      | some d => if d.arg = 0 then datD else d
      | none => datD
  let isCode := mUp ≠ "DAT" ∧ syn1 ≠ datD ∧ (syn1.arg ≠ 0 ∨ syn1.opcode = some value)
  let isReference : Bool := decide (mUp = "DAT" ∨ mnemonic = "") &&
    (match argument with | Arg.lab _ => true | _ => false)
  (value, decide isCode, isReference)

/-- The record produced by `LMC.disassemble`: the selected descriptor, the
numeric operand, the operand as rendered in a listing (a label when the
symbol table names the operand address and the cell is not plain data),
and the `isSloppy` bit. -/
structure Disasm where
  desc : InstrDesc
  argument : Option Nat
  argumentText : Arg
  sloppy : Bool
deriving DecidableEq

/-- `LMC.disassemble(value, isCode, isReference)` of the main variant.
The symbol table maps an address to the label defined there; a present
entry is a non-empty string and hence truthy in the source. -/
def disassembleV1 (symTab : Nat → Option String) (opts : Options) (v : Nat)
    (isCode isReference : Bool) : Disasm :=
  let syn := disassembleSyntax v isCode
  let argument : Option Nat := if syn.arg ≠ 0 then some (v - syn.opcode.getD 0) else none
  let argumentText : Arg :=
    match argument with
    | none => Arg.noA
    | some a =>
      match symTab a with
      | some lbl => if syn.mnemonic ≠ "DAT" ∨ isReference = true then Arg.lab lbl else Arg.num a
      | none => Arg.num a
  ⟨syn, argument, argumentText, isSloppyAt opts v isCode⟩

/-! ### The second variant's assembler (`load`) -/

namespace LMC2

def isWordCharB (c : Char) : Bool := c.isAlphanum || c = '_'

def isSpaceCharB (c : Char) : Bool := c = ' ' || c = '\t' || c = '\r'

def headChar (x : String) : Char :=
  match x.data with
  | [] => ' '
  | c :: _ => c

/-- The line tokenizer `line.match(/[^\s\w].*|\S+/g)`: whitespace is
skipped; a token starting with a non-word character is a comment that
swallows the rest of the line; any other token is a maximal run of
non-space characters (`acc` holds the reversed current token). -/
def tokenizeAux : List Char → List Char → List (List Char)
  | [], acc => if acc.isEmpty then [] else [acc.reverse]
  | c :: rest, acc =>
    if isSpaceCharB c then
      (if acc.isEmpty then [] else [acc.reverse]) ++ tokenizeAux rest []
    else if acc.isEmpty ∧ ¬ isWordCharB c = true then [acc.reverse ++ (c :: rest)]
    else tokenizeAux rest (c :: acc)

def tokenize (line : String) : List String :=
  (tokenizeAux line.data []).map (fun l => String.mk l)

/-- Whether `/^[ \t]*\w/` accepts the line, i.e. whether
`program.match(/^[ \t]*\w.*/gm)` keeps it. -/
def keepLine (l : String) : Bool :=
  match l.data.dropWhile (fun c => c = ' ' || c = '\t') with
  | [] => false
  | c :: _ => isWordCharB c

/-- Split on newline characters (the behaviour of the `m`-flagged match,
written structurally so that it evaluates by kernel reduction). -/
def splitNL : List Char → List Char → List String
  | [], acc => [String.mk acc.reverse]
  | c :: rest, acc =>
    if c = Char.ofNat 10 then String.mk acc.reverse :: splitNL rest []
    else splitNL rest (c :: acc)

/-- `this.lines = program.match(/^[ \t]*\w.*/gm) || ["HLT"]`. -/
def jsLines (program : String) : List String :=
  let ls := (splitNL program.data []).filter keepLine
  if ls.isEmpty then ["HLT"] else ls

/-- JavaScript `isNaN(token)` is false for several numeric literal forms;
the assembler only gives meaning to unsigned decimal integers, and this
embedding restricts numeric tokens to those (a token such as `12.5` or
`0x1A` is treated as non-numeric here). -/
def isNumericToken (x : String) : Bool :=
  !x.data.isEmpty && x.data.all Char.isDigit

/-- Numeric coercion `+token` for the decimal tokens above. -/
def strNum (x : String) : Nat :=
  x.data.foldl (fun acc c => acc * 10 + (c.toNat - 48)) 0

/-- An assembly diagnostic `{ address, msg }` of the second variant. -/
structure AsmErr where
  address : Nat
  msg : String
deriving DecidableEq

/-- A single-quote character, used in diagnostic texts. -/
def sq : String := String.singleton (Char.ofNat 39)

/-- Pass 1 of `load` (label collection).  Mirrored quirks: the
duplicate-definition check looks the original-case token up among the
upper-cased keys and treats an entry at address 0 as absent (JavaScript
truthiness of `labels[label]`); the digit check is `label[0] <= "9"`.
Returns the final label table and the per-line token lists with label
tokens removed, or the first diagnostic. -/
def pass1 : List (List String) → Nat → List (String × Nat) →
    Except AsmErr (List (String × Nat) × List (List String))
  | [], _, labels => Except.ok (labels, [])
  | words :: rest, address, labels =>
    match words with
    | [] => (pass1 rest (address + 1) labels).map (fun r => (r.1, ([] : List String) :: r.2))
    | w0 :: tl =>
      if (mnemonicLookup (upperStr w0)).isSome || isNumericToken w0 then
        (pass1 rest (address + 1) labels).map (fun r => (r.1, (w0 :: tl) :: r.2))
      else
        match tl with
        | [] => Except.error ⟨address, sq ++ w0 ++ sq ++ " is not a valid mnemonic"⟩
        | _ :: _ =>
          if headChar w0 ≤ '9' then
            Except.error ⟨address, sq ++ w0 ++ sq ++ " cannot start with a digit"⟩
          else if (labels.lookup w0).getD 0 ≠ 0 then
            Except.error ⟨address, sq ++ w0 ++ sq ++ " cannot be defined twice"⟩
          else
            (pass1 rest (address + 1) ((upperStr w0, address) :: labels)).map
              (fun r => (r.1, tl :: r.2))

/-- A pass-2 argument: the raw string token, or the number produced by the
numeric-literal branch (which overwrites any token argument). -/
inductive V2Arg where
  | s (x : String)
  | n (x : Int)
deriving DecidableEq

/-- The numeric-literal descriptor search
`Object.values(LMC.mnemonics).find(...)`, in the declaration order of the
table: operand-taking entries match on `mnemonic[0]*100`, the others on
the whole value; the fallback `{ arg: -1 }` has no opcode. -/
def v2Order : List InstrDesc :=
  [hltD, cobD, addD, subD, staD, stoD, ldaD, braD, brD, brzD, brpD, inpD, inD, outD, otcD,
    datD]

def noSyntaxD : InstrDesc := ⟨"", none, -1⟩

def digitVal (c : Char) : Nat := c.toNat - 48

def numericFind (m : String) : InstrDesc :=
  (v2Order.find? (fun e =>
    if e.arg = 1 then decide (digitVal (headChar m) * 100 = e.opcode.getD 0)
    else
      match e.opcode with
      | some oc => decide (strNum m = oc)
      | none => false)).getD noSyntaxD

/-- `/^\d{1,3}$/.test(mnemonic)`. -/
def isDigits13 (m : String) : Bool :=
  m.data.all Char.isDigit && decide (1 ≤ m.length) && decide (m.length ≤ 3)

/-- The tail of a pass-2 line: the addressable-range check (only for
descriptors that carry an opcode), the value computation, and the
out-of-range check, which in the source runs after the value was already
stored — the error therefore carries the stored value. -/
def assembleFinish (syn : InstrDesc) (mailbox : Int) :
    Except (String × Option Int) (Int × Bool) :=
  if syn.opcode.isSome ∧ (mailbox < 0 ∨ mailbox > 99) then
    Except.error ("Mailbox must be in the range 0..99", none)
  else
    let value : Int := (syn.opcode.getD 0 : Int) + mailbox
    if value < 0 ∨ value > 999 then Except.error ("Out of range value", some value)
    else Except.ok (value, syn.opcode.isSome)

/-- Argument checks and symbol resolution shared by both pass-2 branches. -/
def assembleCore (labels : List (String × Nat)) (mnemonic : String) (syn : InstrDesc)
    (arg : Option V2Arg) : Except (String × Option Int) (Int × Bool) :=
  if arg.isNone ∧ syn.arg > 0 then
    Except.error (mnemonic ++ " needs an argument", none)
  else if arg.isSome ∧ syn.arg = 0 then
    Except.error (mnemonic ++ " should not have an argument", none)
  else
    match arg with
    | some (V2Arg.s str) =>
      if isNumericToken str then assembleFinish syn (strNum str : Int)
      else
        match labels.lookup (upperStr str) with
        | none => Except.error ("Undefined label " ++ sq ++ str ++ sq, none)
        | some a => assembleFinish syn (a : Int)
    | some (V2Arg.n x) => assembleFinish syn x
    | none => assembleFinish syn 0

/-- Pass-2 processing of one line: a second token starting with a
non-word character is a comment and not an argument; a 1–3 digit first
token goes through the numeric-literal search and replaces the argument;
otherwise the mnemonic is looked up (upper-cased). -/
def assembleLine (labels : List (String × Nat)) (words : List String) :
    Except (String × Option Int) (Int × Bool) :=
  match words with
  | [] => Except.error ("Unknown mnemonic " ++ sq ++ sq, none)
  | mnemonic :: rest =>
    let argRaw : Option String := rest.head?
    let arg0 : Option String :=
      match argRaw with
      | some a => if ¬ isWordCharB (headChar a) = true then none else some a
      | none => none
    if isDigits13 mnemonic then
      let syn := numericFind mnemonic
      assembleCore labels mnemonic syn
        (some (V2Arg.n ((strNum mnemonic : Int) - (syn.opcode.getD 0 : Int))))
    else
      match mnemonicLookup (upperStr mnemonic) with
      | none => Except.error ("Unknown mnemonic " ++ sq ++ mnemonic ++ sq, none)
      | some syn => assembleCore labels mnemonic syn (arg0.map V2Arg.s)

/-- The symbol-resolution loop of `load`: assembles line by line,
appending each stored value, and stops at the first diagnostic (whose
address is the line index). -/
def pass2go (labels : List (String × Nat)) : Nat → List (List String) → List Int →
    List Nat → List Int × List Nat × Option AsmErr
  | _, [], mbs, code => (mbs, code, none)
  | address, words :: rest, mbs, code =>
    match assembleLine labels words with
    | Except.error (msg, stored) => (mbs ++ stored.toList, code, some ⟨address, msg⟩)
    | Except.ok (value, isCode) =>
        pass2go labels (address + 1) rest (mbs ++ [value])
          (if isCode then code ++ [address] else code)

/-- The machine-facing result of the second variant's `load`: the raw
mailbox array, the code-classification set, the label table, the
diagnostic, the `isLoaded` mark, and the registers relevant to
assembly. -/
structure V2State where
  mailbox : List Int
  codeMailboxes : List Nat
  labels : List (String × Nat)
  err : Option AsmErr
  isLoaded : Bool
  accumulator : Nat
  flag : Bool
  programCounter : Nat
deriving DecidableEq

/-- The second variant's `load(program)`: the assembly state is cleared
up front, `isLoaded` is reset, the two passes run and stop at the first
diagnostic; only on success are the registers zeroed and the machine
marked loaded.  Registers keep their previous values on a failed load. -/
def load (prev : V2State) (program : String) : V2State :=
  let base : V2State :=
    { prev with mailbox := [], codeMailboxes := [], labels := [],
                err := none, isLoaded := false }
  let lws := (jsLines program).map tokenize
  match pass1 lws 0 [] with
  | Except.error e => { base with err := some e }
  | Except.ok (labels, stripped) =>
    match pass2go labels 0 stripped [] [] with
    | (mbs, code, some e) =>
        { base with mailbox := mbs, codeMailboxes := code, labels := labels, err := some e }
    | (mbs, code, none) =>
        { base with mailbox := mbs, codeMailboxes := code, labels := labels,
                    accumulator := 0, flag := false, programCounter := 0, isLoaded := true }

/-- A fresh second-variant machine, as right after the constructor. -/
def fresh : V2State :=
  { mailbox := [], codeMailboxes := [], labels := [], err := none, isLoaded := false,
    accumulator := 0, flag := false, programCounter := 0 }

end LMC2

@[simp] lemma setPC_accumulator (s : LMCState) (x : Int) : (setPC s x).accumulator = s.accumulator := rfl

@[simp] lemma setPC_flag (s : LMCState) (x : Int) : (setPC s x).flag = s.flag := rfl

@[simp] lemma setPC_isAccUndefined (s : LMCState) (x : Int) : (setPC s x).isAccUndefined = s.isAccUndefined := rfl

@[simp] lemma setPC_mailboxValues (s : LMCState) (x : Int) : (setPC s x).mailboxValues = s.mailboxValues := rfl

@[simp] lemma setPC_err (s : LMCState) (x : Int) : (setPC s x).err = s.err := rfl

@[simp] lemma setPC_inputs (s : LMCState) (x : Int) : (setPC s x).inputs = s.inputs := rfl

@[simp] lemma setPC_outputs (s : LMCState) (x : Int) : (setPC s x).outputs = s.outputs := rfl

@[simp] lemma setPC_options (s : LMCState) (x : Int) : (setPC s x).options = s.options := rfl

@[simp] lemma setPC_programCounter (s : LMCState) (x : Int) : (setPC s x).programCounter = intmod x 100 := rfl

@[simp] lemma setPC_overflowed (s : LMCState) (x : Int) :
    (setPC s x).programCounterOverflowed = decide ((intmod x 100 : Int) ≠ x) := rfl

@[simp] lemma setAccumulator_accumulator (s : LMCState) (x : Int) : (setAccumulator s x).accumulator = intmod x 1000 := rfl

@[simp] lemma setAccumulator_flag (s : LMCState) (x : Int) : (setAccumulator s x).flag = false := rfl

@[simp] lemma setAccumulator_isAccUndefined (s : LMCState) (x : Int) : (setAccumulator s x).isAccUndefined = false := rfl

@[simp] lemma setAccumulator_programCounter (s : LMCState) (x : Int) : (setAccumulator s x).programCounter = s.programCounter := rfl

@[simp] lemma setAccumulator_overflowed (s : LMCState) (x : Int) :
    (setAccumulator s x).programCounterOverflowed = s.programCounterOverflowed := rfl

@[simp] lemma setAccumulator_mailboxValues (s : LMCState) (x : Int) : (setAccumulator s x).mailboxValues = s.mailboxValues := rfl

@[simp] lemma setAccumulator_err (s : LMCState) (x : Int) : (setAccumulator s x).err = s.err := rfl

@[simp] lemma setAccumulator_inputs (s : LMCState) (x : Int) : (setAccumulator s x).inputs = s.inputs := rfl

@[simp] lemma setAccumulator_outputs (s : LMCState) (x : Int) : (setAccumulator s x).outputs = s.outputs := rfl

@[simp] lemma setAccumulator_options (s : LMCState) (x : Int) : (setAccumulator s x).options = s.options := rfl

@[simp] lemma setMailbox_accumulator (s : LMCState) (a : Nat) (x : Int) : (setMailbox s a x).accumulator = s.accumulator := rfl

@[simp] lemma setMailbox_flag (s : LMCState) (a : Nat) (x : Int) : (setMailbox s a x).flag = s.flag := rfl

@[simp] lemma setMailbox_isAccUndefined (s : LMCState) (a : Nat) (x : Int) : (setMailbox s a x).isAccUndefined = s.isAccUndefined := rfl

@[simp] lemma setMailbox_programCounter (s : LMCState) (a : Nat) (x : Int) : (setMailbox s a x).programCounter = s.programCounter := rfl

@[simp] lemma setMailbox_overflowed (s : LMCState) (a : Nat) (x : Int) :
    (setMailbox s a x).programCounterOverflowed = s.programCounterOverflowed := rfl

@[simp] lemma setMailbox_err (s : LMCState) (a : Nat) (x : Int) : (setMailbox s a x).err = s.err := rfl

@[simp] lemma setMailbox_inputs (s : LMCState) (a : Nat) (x : Int) : (setMailbox s a x).inputs = s.inputs := rfl

@[simp] lemma setMailbox_outputs (s : LMCState) (a : Nat) (x : Int) : (setMailbox s a x).outputs = s.outputs := rfl

@[simp] lemma setMailbox_options (s : LMCState) (a : Nat) (x : Int) : (setMailbox s a x).options = s.options := rfl

@[simp] lemma errorOp_accumulator (s : LMCState) (m : String) : (errorOp s m).accumulator = s.accumulator := rfl

@[simp] lemma errorOp_flag (s : LMCState) (m : String) : (errorOp s m).flag = s.flag := rfl

@[simp] lemma errorOp_isAccUndefined (s : LMCState) (m : String) : (errorOp s m).isAccUndefined = s.isAccUndefined := rfl

@[simp] lemma errorOp_mailboxValues (s : LMCState) (m : String) : (errorOp s m).mailboxValues = s.mailboxValues := rfl

@[simp] lemma errorOp_inputs (s : LMCState) (m : String) : (errorOp s m).inputs = s.inputs := rfl

@[simp] lemma errorOp_outputs (s : LMCState) (m : String) : (errorOp s m).outputs = s.outputs := rfl

@[simp] lemma errorOp_options (s : LMCState) (m : String) : (errorOp s m).options = s.options := rfl

@[simp] lemma errorOp_programCounter (s : LMCState) (m : String) :
    (errorOp s m).programCounter = intmod ((s.programCounter : Int) - 1) 100 := rfl

@[simp] lemma errorOp_err (s : LMCState) (m : String) :
    (errorOp s m).err = some ⟨intmod ((s.programCounter : Int) - 1) 100, m⟩ := rfl

@[simp] lemma intmod_natCast_1000 (n : Nat) : intmod (n : Int) 1000 = n % 1000 := by
  unfold intmod; omega

@[simp] lemma intmod_natCast_100 (n : Nat) : intmod (n : Int) 100 = n % 100 := by
  unfold intmod; omega

lemma intmod_1000_lt (v : Int) : intmod v 1000 < 1000 := by
  unfold intmod; omega

lemma intmod_100_lt (v : Int) : intmod v 100 < 100 := by
  unfold intmod; omega

lemma intmod_natCast_small (n : Nat) (h : n ≤ 99) : intmod (n : Int) 100 = n := by
  unfold intmod; omega

lemma intmod_pred (pc : Nat) (h1 : 1 ≤ pc) (h2 : pc ≤ 100) :
    intmod ((pc : Int) - 1) 100 = pc - 1 := by
  unfold intmod; omega

lemma instructions_none (v : Nat) (h0 : v ≠ 0) (h1 : v ≠ 100) (h2 : v ≠ 200) (h3 : v ≠ 300)
    (h4 : v ≠ 500) (h5 : v ≠ 600) (h6 : v ≠ 700) (h7 : v ≠ 800) (h8 : v ≠ 901)
    (h9 : v ≠ 902) (h10 : v ≠ 922) : instructions v = none := by
  rw [instructions, if_neg h0, if_neg h1, if_neg h2, if_neg h3, if_neg h4, if_neg h5, if_neg h6,
    if_neg h7, if_neg h8, if_neg h9, if_neg h10]

lemma disassembleSyntax_of_instructions (v : Nat) (d : InstrDesc) (h : instructions v = some d) :
    disassembleSyntax v true = d := by
  unfold disassembleSyntax
  rw [h]
  rfl

lemma disassembleSyntax_hltc : disassembleSyntax 0 true = hltD := by decide

lemma disassembleSyntax_low (v : Nat) (h1 : 1 ≤ v) (h2 : v ≤ 99) :
    disassembleSyntax v true = datD := by
  have hf : instructions v = none :=
    instructions_none v (by omega) (by omega) (by omega) (by omega) (by omega) (by omega)
      (by omega) (by omega) (by omega) (by omega) (by omega)
  have hm : v - v % 100 = 0 := by omega
  unfold disassembleSyntax
  rw [hf, hm]
  decide

lemma disassembleSyntax_add (n : Nat) (hn : n ≤ 99) :
    disassembleSyntax (100 + n) true = addD := by
  rcases Nat.eq_zero_or_pos n with h | h
  · subst h; decide
  · have hf : instructions (100 + n) = none :=
      instructions_none _ (by omega) (by omega) (by omega) (by omega) (by omega) (by omega)
        (by omega) (by omega) (by omega) (by omega) (by omega)
    have hm : 100 + n - (100 + n) % 100 = 100 := by omega
    unfold disassembleSyntax
    rw [hf, hm]
    decide

lemma disassembleSyntax_sub (n : Nat) (hn : n ≤ 99) :
    disassembleSyntax (200 + n) true = subD := by
  rcases Nat.eq_zero_or_pos n with h | h
  · subst h; decide
  · have hf : instructions (200 + n) = none :=
      instructions_none _ (by omega) (by omega) (by omega) (by omega) (by omega) (by omega)
        (by omega) (by omega) (by omega) (by omega) (by omega)
    have hm : 200 + n - (200 + n) % 100 = 200 := by omega
    unfold disassembleSyntax
    rw [hf, hm]
    decide

lemma disassembleSyntax_sta (n : Nat) (hn : n ≤ 99) :
    disassembleSyntax (300 + n) true = staD := by
  rcases Nat.eq_zero_or_pos n with h | h
  · subst h; decide
  · have hf : instructions (300 + n) = none :=
      instructions_none _ (by omega) (by omega) (by omega) (by omega) (by omega) (by omega)
        (by omega) (by omega) (by omega) (by omega) (by omega)
    have hm : 300 + n - (300 + n) % 100 = 300 := by omega
    unfold disassembleSyntax
    rw [hf, hm]
    decide

lemma disassembleSyntax_400 (n : Nat) (hn : n ≤ 99) :
    disassembleSyntax (400 + n) true = datD := by
  have hf : instructions (400 + n) = none :=
    instructions_none _ (by omega) (by omega) (by omega) (by omega) (by omega) (by omega)
      (by omega) (by omega) (by omega) (by omega) (by omega)
  have hm : 400 + n - (400 + n) % 100 = 400 := by omega
  unfold disassembleSyntax
  rw [hf, hm]
  decide

lemma disassembleSyntax_lda (n : Nat) (hn : n ≤ 99) :
    disassembleSyntax (500 + n) true = ldaD := by
  rcases Nat.eq_zero_or_pos n with h | h
  · subst h; decide
  · have hf : instructions (500 + n) = none :=
      instructions_none _ (by omega) (by omega) (by omega) (by omega) (by omega) (by omega)
        (by omega) (by omega) (by omega) (by omega) (by omega)
    have hm : 500 + n - (500 + n) % 100 = 500 := by omega
    unfold disassembleSyntax
    rw [hf, hm]
    decide

lemma disassembleSyntax_bra (n : Nat) (hn : n ≤ 99) :
    disassembleSyntax (600 + n) true = braD := by
  rcases Nat.eq_zero_or_pos n with h | h
  · subst h; decide
  · have hf : instructions (600 + n) = none :=
      instructions_none _ (by omega) (by omega) (by omega) (by omega) (by omega) (by omega)
        (by omega) (by omega) (by omega) (by omega) (by omega)
    have hm : 600 + n - (600 + n) % 100 = 600 := by omega
    unfold disassembleSyntax
    rw [hf, hm]
    decide

lemma disassembleSyntax_brz (n : Nat) (hn : n ≤ 99) :
    disassembleSyntax (700 + n) true = brzD := by
  rcases Nat.eq_zero_or_pos n with h | h
  · subst h; decide
  · have hf : instructions (700 + n) = none :=
      instructions_none _ (by omega) (by omega) (by omega) (by omega) (by omega) (by omega)
        (by omega) (by omega) (by omega) (by omega) (by omega)
    have hm : 700 + n - (700 + n) % 100 = 700 := by omega
    unfold disassembleSyntax
    rw [hf, hm]
    decide

lemma disassembleSyntax_brp (n : Nat) (hn : n ≤ 99) :
    disassembleSyntax (800 + n) true = brpD := by
  rcases Nat.eq_zero_or_pos n with h | h
  · subst h; decide
  · have hf : instructions (800 + n) = none :=
      instructions_none _ (by omega) (by omega) (by omega) (by omega) (by omega) (by omega)
        (by omega) (by omega) (by omega) (by omega) (by omega)
    have hm : 800 + n - (800 + n) % 100 = 800 := by omega
    unfold disassembleSyntax
    rw [hf, hm]
    decide

lemma disassembleSyntax_900 (n : Nat) (hn : n ≤ 99) (h1 : n ≠ 1) (h2 : n ≠ 2) (h3 : n ≠ 22) :
    disassembleSyntax (900 + n) true = datD := by
  have hf : instructions (900 + n) = none :=
    instructions_none _ (by omega) (by omega) (by omega) (by omega) (by omega) (by omega)
      (by omega) (by omega) (by omega) (by omega) (by omega)
  have hm : 900 + n - (900 + n) % 100 = 900 := by omega
  unfold disassembleSyntax
  rw [hf, hm]
  decide

lemma disassembleSyntax_inpc : disassembleSyntax 901 true = inpD := by decide

lemma disassembleSyntax_outc : disassembleSyntax 902 true = outD := by decide

lemma disassembleSyntax_otcc : disassembleSyntax 922 true = otcD := by decide

lemma instructions_arg0 (v : Nat) (d : InstrDesc) (h : instructions v = some d)
    (ha : d.arg = 0) : d.opcode = some v := by
  rw [instructions] at h
  by_cases h0 : v = 0
  · subst h0; simp at h; subst h; decide
  rw [if_neg h0] at h
  by_cases h1 : v = 100
  · subst h1; simp at h; subst h; exact absurd ha (by decide)
  rw [if_neg h1] at h
  by_cases h2 : v = 200
  · subst h2; simp at h; subst h; exact absurd ha (by decide)
  rw [if_neg h2] at h
  by_cases h3 : v = 300
  · subst h3; simp at h; subst h; exact absurd ha (by decide)
  rw [if_neg h3] at h
  by_cases h4 : v = 500
  · subst h4; simp at h; subst h; exact absurd ha (by decide)
  rw [if_neg h4] at h
  by_cases h5 : v = 600
  · subst h5; simp at h; subst h; exact absurd ha (by decide)
  rw [if_neg h5] at h
  by_cases h6 : v = 700
  · subst h6; simp at h; subst h; exact absurd ha (by decide)
  rw [if_neg h6] at h
  by_cases h7 : v = 800
  · subst h7; simp at h; subst h; exact absurd ha (by decide)
  rw [if_neg h7] at h
  by_cases h8 : v = 901
  · subst h8; simp at h; subst h; decide
  rw [if_neg h8] at h
  by_cases h9 : v = 902
  · subst h9; simp at h; subst h; decide
  rw [if_neg h9] at h
  by_cases h10 : v = 922
  · subst h10; simp at h; subst h; decide
  rw [if_neg h10] at h
  exact absurd h (by simp)

/-- The `isSloppy` bit computed for an executable cell is never set: the
only descriptors with arity 0 are selected by an exact opcode match, for
which `syntax.opcode === value`. -/
lemma isSloppyAt_eq_false (opts : Options) (v : Nat) : isSloppyAt opts v true = false := by
  unfold isSloppyAt
  cases hf : instructions v with
  | some d =>
    have hd : disassembleSyntax v true = d := disassembleSyntax_of_instructions v d hf
    rw [hd]
    by_cases harg : d.arg = 0
    · have hop := instructions_arg0 v d hf harg
      simp [hop, harg]
    · simp [harg]
  | none =>
    unfold disassembleSyntax
    rw [hf]
    cases hs : instructions (v - v % 100) with
    | some d =>
      by_cases harg : d.arg = 0
      · simp [harg, datD, Option.orElse]
      · simp [harg, Option.orElse]
    | none =>
      simp [datD, Option.orElse]

/-- Evaluating `step` when the decoded instruction has a method: the
invalid-instruction branch is skipped and the decoded opcode is
dispatched. -/
lemma step_eq_of_decode (s : LMCState) (op : Nat)
    (hop : (disassembleSyntax (s.mailboxValues (s.programCounter % 100)) true).opcode = some op) :
    step s =
      (let s2 := dispatch (setPC s ((s.programCounter : Int) + 1)) op
                   (s.mailboxValues (s.programCounter % 100))
       let s3 := if s2.programCounterOverflowed = true ∧
                    s2.options.forbidProgramCounterOverflow = true
                 then errorOp s2 overflowMsg else s2
       (s3, decide (s.programCounter ≠ s3.programCounter))) := by
  unfold step
  simp only [setPC_mailboxValues, setPC_options, hop, isSloppyAt_eq_false, Option.getD_some]
  simp

/-- Evaluating `step` when the decoded instruction has no method: the
invalid-instruction error is raised before the overflow check. -/
lemma step_eq_of_invalid (s : LMCState)
    (hop : (disassembleSyntax (s.mailboxValues (s.programCounter % 100)) true).opcode = none) :
    step s =
      (let s2 := errorOp (setPC s ((s.programCounter : Int) + 1))
                   (invalidMsg (s.mailboxValues (s.programCounter % 100)))
       let s3 := if s2.programCounterOverflowed = true ∧
                    s2.options.forbidProgramCounterOverflow = true
                 then errorOp s2 overflowMsg else s2
       (s3, decide (s.programCounter ≠ s3.programCounter))) := by
  unfold step
  simp only [setPC_mailboxValues, setPC_options, hop, isSloppyAt_eq_false]
  simp

lemma dispatch_0 (s : LMCState) (v : Nat) : dispatch s 0 v = instrHLT s := by
  rw [dispatch]; norm_num

lemma dispatch_100 (s : LMCState) (v : Nat) : dispatch s 100 v = instrADD s v := by
  rw [dispatch]; norm_num

lemma dispatch_200 (s : LMCState) (v : Nat) : dispatch s 200 v = instrSUB s v := by
  rw [dispatch]; norm_num

lemma dispatch_300 (s : LMCState) (v : Nat) : dispatch s 300 v = instrSTA s v := by
  rw [dispatch]; norm_num

lemma dispatch_500 (s : LMCState) (v : Nat) : dispatch s 500 v = instrLDA s v := by
  rw [dispatch]; norm_num

lemma dispatch_600 (s : LMCState) (v : Nat) : dispatch s 600 v = instrBRA s v := by
  rw [dispatch]; norm_num

lemma dispatch_700 (s : LMCState) (v : Nat) : dispatch s 700 v = instrBRZ s v := by
  rw [dispatch]; norm_num

lemma dispatch_800 (s : LMCState) (v : Nat) : dispatch s 800 v = instrBRP s v := by
  rw [dispatch]; norm_num

lemma dispatch_901 (s : LMCState) (v : Nat) : dispatch s 901 v = instrINP s := by
  rw [dispatch]; norm_num

lemma dispatch_902 (s : LMCState) (v : Nat) : dispatch s 902 v = instrOUT s := by
  rw [dispatch]; norm_num

lemma dispatch_922 (s : LMCState) (v : Nat) : dispatch s 922 v = instrOTC s := by
  rw [dispatch]; norm_num

lemma addValue_of_fails (s : LMCState) (d : Int) (h : failsWhenUndefined s = true) :
    addValue s d = errorOp s unreliableMsg := by
  unfold addValue
  rw [if_pos h]

lemma addValue_eq (s : LMCState) (d : Int) (h : failsWhenUndefined s = false) :
    addValue s d =
      { s with
        accumulator := intmod ((s.accumulator : Int) + d) 1000
        flag :=
          if (s.accumulator : Int) + d < 0 ∨
             ((s.accumulator : Int) + d > 999 ∧ s.options.setFlagOnOverflow = true) then true
          else s.flag
        isAccUndefined :=
          if (s.accumulator : Int) + d < 0 ∨ (s.accumulator : Int) + d > 999 then true
          else s.isAccUndefined } := by
  unfold addValue
  rw [if_neg (show ¬ failsWhenUndefined s = true by simp [h])]
  by_cases hc1 : (s.accumulator : Int) + d < 0 ∨
      ((s.accumulator : Int) + d > 999 ∧ s.options.setFlagOnOverflow = true)
  · by_cases hc2 : (s.accumulator : Int) + d < 0 ∨ (s.accumulator : Int) + d > 999
    · simp [hc1, hc2]
    · exact absurd hc2 (by tauto)
  · by_cases hc2 : (s.accumulator : Int) + d < 0 ∨ (s.accumulator : Int) + d > 999
    · simp [hc1, hc2]
    · simp [hc1, hc2]

lemma postlude_accumulator (c : Prop) [Decidable c] (t : LMCState) :
    (if c then errorOp t overflowMsg else t).accumulator = t.accumulator := by
  split <;> simp

lemma postlude_flag (c : Prop) [Decidable c] (t : LMCState) :
    (if c then errorOp t overflowMsg else t).flag = t.flag := by
  split <;> simp

lemma postlude_isAccUndefined (c : Prop) [Decidable c] (t : LMCState) :
    (if c then errorOp t overflowMsg else t).isAccUndefined = t.isAccUndefined := by
  split <;> simp

lemma postlude_mailboxValues (c : Prop) [Decidable c] (t : LMCState) :
    (if c then errorOp t overflowMsg else t).mailboxValues = t.mailboxValues := by
  split <;> simp

lemma postlude_inputs (c : Prop) [Decidable c] (t : LMCState) :
    (if c then errorOp t overflowMsg else t).inputs = t.inputs := by
  split <;> simp

lemma postlude_outputs (c : Prop) [Decidable c] (t : LMCState) :
    (if c then errorOp t overflowMsg else t).outputs = t.outputs := by
  split <;> simp

lemma postlude_options (c : Prop) [Decidable c] (t : LMCState) :
    (if c then errorOp t overflowMsg else t).options = t.options := by
  split <;> simp

lemma intmod_addNat (a b : Nat) : intmod ((a : Int) + (b : Int)) 1000 = (a + b) % 1000 := by
  unfold intmod; omega

/-- C5: executing ADD with operand `m` on a state whose accumulator is
reliable stores `(accumulator + memory[m]) mod 1000` in the accumulator;
the accumulator becomes unreliable exactly when the sum exceeds 999; on
such an overflow the flag is set exactly when the `setFlagOnOverflow`
policy is enabled (so, starting from a clear flag, the flag ends up set if
and only if the policy is on), and ADD never clears a set flag. -/
theorem c5_add_semantics (s : LMCState) (n : Nat) (hn : n ≤ 99)
    (hrel : s.isAccUndefined = false)
    (hv : s.mailboxValues (s.programCounter % 100) = 100 + n) :
    ((step s).1.accumulator = (s.accumulator + s.mailboxValues n) % 1000)
  ∧ ((step s).1.isAccUndefined = decide (999 < s.accumulator + s.mailboxValues n))
  ∧ (s.accumulator + s.mailboxValues n ≤ 999 → (step s).1.flag = s.flag)
  ∧ (999 < s.accumulator + s.mailboxValues n →
      (step s).1.flag = (s.flag || s.options.setFlagOnOverflow))
  ∧ (s.flag = true → (step s).1.flag = true) := by
  have hmod : (100 + n) % 100 = n := by omega
  have hop : (disassembleSyntax (s.mailboxValues (s.programCounter % 100)) true).opcode
      = some 100 := by
    rw [hv, disassembleSyntax_add n hn]
    rfl
  have hfail : failsWhenUndefined (setPC s ((s.programCounter : Int) + 1)) = false := by
    simp [failsWhenUndefined, hrel]
  have hstep := step_eq_of_decode s 100 hop
  rw [hv, dispatch_100] at hstep
  simp only [instrADD, getMailbox, setPC_mailboxValues, hmod] at hstep
  rw [addValue_eq _ _ hfail] at hstep
  simp only [setPC_accumulator, setPC_flag, setPC_isAccUndefined, setPC_options] at hstep
  have h1 : (step s).1 = _ := congrArg Prod.fst hstep
  refine ⟨?_, ?_, ?_, ?_, ?_⟩
  · rw [h1, postlude_accumulator]
    show intmod ((s.accumulator : Int) + (s.mailboxValues n : Int)) 1000 = _
    rw [intmod_addNat]
  · rw [h1, postlude_isAccUndefined]
    show (if (s.accumulator : Int) + (s.mailboxValues n : Int) < 0 ∨
          (s.accumulator : Int) + (s.mailboxValues n : Int) > 999 then true
          else s.isAccUndefined) = _
    by_cases hover : 999 < s.accumulator + s.mailboxValues n
    · rw [if_pos (by omega), eq_comm]
      simp [hover]
    · rw [if_neg (by omega), hrel, eq_comm]
      simp [hover]
  · intro hle
    rw [h1, postlude_flag]
    show (if (s.accumulator : Int) + (s.mailboxValues n : Int) < 0 ∨
          ((s.accumulator : Int) + (s.mailboxValues n : Int) > 999 ∧
            s.options.setFlagOnOverflow = true) then true
          else s.flag) = _
    rw [if_neg]
    rintro (h | ⟨h, _⟩) <;> omega
  · intro hover
    rw [h1, postlude_flag]
    show (if (s.accumulator : Int) + (s.mailboxValues n : Int) < 0 ∨
          ((s.accumulator : Int) + (s.mailboxValues n : Int) > 999 ∧
            s.options.setFlagOnOverflow = true) then true
          else s.flag) = _
    cases hpol : s.options.setFlagOnOverflow
    · rw [if_neg]
      · simp
      · rintro (h | ⟨h1, h2⟩)
        · omega
        · simp [hpol] at h2
    · rw [if_pos (Or.inr ⟨by omega, rfl⟩)]
      simp
  · intro hflag
    rw [h1, postlude_flag]
    show (if (s.accumulator : Int) + (s.mailboxValues n : Int) < 0 ∨
          ((s.accumulator : Int) + (s.mailboxValues n : Int) > 999 ∧
            s.options.setFlagOnOverflow = true) then true
          else s.flag) = _
    split <;> simp [hflag]


/-- The boolean returned by `step` is exactly whether the program counter
moved. -/
lemma step_bool (s : LMCState) :
    (step s).2 = decide (s.programCounter ≠ (step s).1.programCounter) := rfl

/-- C6: executing SUB with operand `m` on a state whose accumulator is
reliable and in range stores `(accumulator − memory[m]) mod 1000`; on
underflow the flag is set and the accumulator becomes unreliable no matter
how the policy switches are set; without underflow flag and reliability are
untouched; SUB never clears a set flag; the wrapped result is the
1000-complement. -/
theorem c6_sub_semantics (s : LMCState) (n : Nat) (hn : n ≤ 99)
    (hrel : s.isAccUndefined = false) (hacc : s.accumulator ≤ 999)
    (hv : s.mailboxValues (s.programCounter % 100) = 200 + n) :
    ((step s).1.accumulator = intmod ((s.accumulator : Int) - (s.mailboxValues n : Int)) 1000)
  ∧ (s.accumulator < s.mailboxValues n →
      (step s).1.flag = true ∧ (step s).1.isAccUndefined = true)
  ∧ (s.mailboxValues n ≤ s.accumulator →
      (step s).1.flag = s.flag ∧ (step s).1.isAccUndefined = false
        ∧ (step s).1.accumulator = s.accumulator - s.mailboxValues n)
  ∧ (s.flag = true → (step s).1.flag = true)
  ∧ (s.accumulator < s.mailboxValues n → s.mailboxValues n ≤ 999 →
      (step s).1.accumulator = 1000 + s.accumulator - s.mailboxValues n) := by
  have hmod : (200 + n) % 100 = n := by omega
  have hop : (disassembleSyntax (s.mailboxValues (s.programCounter % 100)) true).opcode
      = some 200 := by
    rw [hv, disassembleSyntax_sub n hn]
    rfl
  have hfail : failsWhenUndefined (setPC s ((s.programCounter : Int) + 1)) = false := by
    simp [failsWhenUndefined, hrel]
  have hstep := step_eq_of_decode s 200 hop
  rw [hv, dispatch_200] at hstep
  simp only [instrSUB, getMailbox, setPC_mailboxValues, hmod] at hstep
  rw [addValue_eq _ _ hfail] at hstep
  simp only [setPC_accumulator, setPC_flag, setPC_isAccUndefined, setPC_options] at hstep
  have h1 : (step s).1 = _ := congrArg Prod.fst hstep
  refine ⟨?_, ?_, ?_, ?_, ?_⟩
  · rw [h1, postlude_accumulator]
    show intmod ((s.accumulator : Int) + -(s.mailboxValues n : Int)) 1000 = _
    rw [← Int.sub_eq_add_neg]
  · intro hund
    constructor
    · rw [h1, postlude_flag]
      show (if (s.accumulator : Int) + -(s.mailboxValues n : Int) < 0 ∨
            ((s.accumulator : Int) + -(s.mailboxValues n : Int) > 999 ∧
              s.options.setFlagOnOverflow = true) then true
            else s.flag) = true
      rw [if_pos (Or.inl (by omega))]
    · rw [h1, postlude_isAccUndefined]
      show (if (s.accumulator : Int) + -(s.mailboxValues n : Int) < 0 ∨
            (s.accumulator : Int) + -(s.mailboxValues n : Int) > 999 then true
            else s.isAccUndefined) = true
      rw [if_pos (Or.inl (by omega))]
  · intro hge
    refine ⟨?_, ?_, ?_⟩
    · rw [h1, postlude_flag]
      show (if (s.accumulator : Int) + -(s.mailboxValues n : Int) < 0 ∨
            ((s.accumulator : Int) + -(s.mailboxValues n : Int) > 999 ∧
              s.options.setFlagOnOverflow = true) then true
            else s.flag) = s.flag
      rw [if_neg]
      rintro (h | ⟨h, _⟩) <;> omega
    · rw [h1, postlude_isAccUndefined]
      show (if (s.accumulator : Int) + -(s.mailboxValues n : Int) < 0 ∨
            (s.accumulator : Int) + -(s.mailboxValues n : Int) > 999 then true
            else s.isAccUndefined) = false
      rw [if_neg (by omega), hrel]
    · rw [h1, postlude_accumulator]
      show intmod ((s.accumulator : Int) + -(s.mailboxValues n : Int)) 1000 = _
      unfold intmod
      omega
  · intro hflag
    rw [h1, postlude_flag]
    show (if (s.accumulator : Int) + -(s.mailboxValues n : Int) < 0 ∨
          ((s.accumulator : Int) + -(s.mailboxValues n : Int) > 999 ∧
            s.options.setFlagOnOverflow = true) then true
          else s.flag) = true
    split <;> simp [hflag]
  · intro hund hmem
    rw [h1, postlude_accumulator]
    show intmod ((s.accumulator : Int) + -(s.mailboxValues n : Int)) 1000 = _
    unfold intmod
    omega

/-- Characterization of a `step` that fetches a BRP instruction `800+n`:
the branch decision depends only on the flag. -/
lemma step1_brp (s : LMCState) (n : Nat) (hn : n ≤ 99)
    (hv : s.mailboxValues (s.programCounter % 100) = 800 + n) :
    (step s).1 =
      if s.flag = true then
        (if ((intmod ((s.programCounter : Int) + 1) 100 : Int) ≠ (s.programCounter : Int) + 1)
            ∧ s.options.forbidProgramCounterOverflow = true
         then errorOp (setPC s ((s.programCounter : Int) + 1)) overflowMsg
         else setPC s ((s.programCounter : Int) + 1))
      else setPC (setPC s ((s.programCounter : Int) + 1)) (n : Int) := by
  have hmod : (800 + n) % 100 = n := by omega
  have hop : (disassembleSyntax (s.mailboxValues (s.programCounter % 100)) true).opcode
      = some 800 := by
    rw [hv, disassembleSyntax_brp n hn]
    rfl
  have hstep := step_eq_of_decode s 800 hop
  rw [hv, dispatch_800] at hstep
  have h1 : (step s).1 = _ := congrArg Prod.fst hstep
  rw [h1]
  simp only [instrBRP, setPC_flag]
  by_cases hf : s.flag = true
  · rw [if_pos hf, if_pos hf]
    simp only [setPC_overflowed, setPC_options]
    simp only [decide_eq_true_eq]
  · rw [if_neg hf, if_neg hf]
    simp only [instrBRA]
    rw [hmod]
    have hof : (setPC (setPC s ((s.programCounter : Int) + 1)) ((n : Nat) : Int)).programCounterOverflowed = false := by
      simp [intmod_natCast_small n hn]
    rw [if_neg]
    rw [hof]
    simp

/-- C7: BRP branches (the counter is set to the operand) exactly when the
flag is clear; with the flag set and no counter wraparound it falls
through to the next cell; and the whole outcome — counter, flag,
diagnostic and the step return value — is unchanged under any change of
the accumulator value or of its reliability bit, so the decision is never
gated by the unreliable-accumulator policy. -/
theorem c7_brp_semantics (s : LMCState) (n : Nat) (hn : n ≤ 99)
    (hv : s.mailboxValues (s.programCounter % 100) = 800 + n) :
    (s.flag = false → (step s).1.programCounter = n ∧ (step s).1.err = s.err
      ∧ (step s).1.flag = false ∧ (step s).1.accumulator = s.accumulator
      ∧ (step s).1.isAccUndefined = s.isAccUndefined)
  ∧ (s.flag = true → s.programCounter ≤ 98 →
      (step s).1.programCounter = s.programCounter + 1 ∧ (step s).1.err = s.err)
  ∧ (∀ (a : Nat) (u : Bool),
      (step { s with accumulator := a, isAccUndefined := u }).1.programCounter
          = (step s).1.programCounter
    ∧ (step { s with accumulator := a, isAccUndefined := u }).1.flag = (step s).1.flag
    ∧ (step { s with accumulator := a, isAccUndefined := u }).1.err = (step s).1.err
    ∧ (step { s with accumulator := a, isAccUndefined := u }).2 = (step s).2) := by
  have hbrp := step1_brp s n hn hv
  refine ⟨?_, ?_, ?_⟩
  · intro hf
    rw [hbrp, if_neg (by simp [hf])]
    refine ⟨?_, rfl, ?_, rfl, rfl⟩
    · simp [intmod_natCast_small n hn]
    · simp [hf]
  · intro hf hpc
    rw [hbrp, if_pos hf]
    have hsm : intmod ((s.programCounter : Int) + 1) 100 = s.programCounter + 1 := by
      unfold intmod
      omega
    rw [if_neg]
    · refine ⟨?_, rfl⟩
      simp [hsm]
    · rintro ⟨h, _⟩
      rw [hsm] at h
      exact h (by push_cast; ring)
  · intro a u
    have hv2 : ({ s with accumulator := a, isAccUndefined := u } :
        LMCState).mailboxValues
          (({ s with accumulator := a, isAccUndefined := u } :
              LMCState).programCounter % 100) = 800 + n := hv
    have hbrp2 := step1_brp { s with accumulator := a, isAccUndefined := u } n hn hv2
    have hbool1 := step_bool s
    have hbool2 := step_bool { s with accumulator := a, isAccUndefined := u }
    dsimp only at hbrp2
    by_cases hf : s.flag = true
    · by_cases hc : ((intmod ((s.programCounter : Int) + 1) 100 : Int) ≠ (s.programCounter : Int) + 1)
          ∧ s.options.forbidProgramCounterOverflow = true
      · rw [hbrp, hbrp2]
        simp only [if_pos hf, if_pos hc]
        refine ⟨rfl, rfl, rfl, ?_⟩
        rw [hbool1, hbool2, hbrp, hbrp2]
        simp only [if_pos hf, if_pos hc]
        rfl
      · rw [hbrp, hbrp2]
        simp only [if_pos hf, if_neg hc]
        refine ⟨rfl, rfl, rfl, ?_⟩
        rw [hbool1, hbool2, hbrp, hbrp2]
        simp only [if_pos hf, if_neg hc]
        rfl
    · rw [hbrp, hbrp2]
      simp only [if_neg hf]
      refine ⟨rfl, rfl, rfl, ?_⟩
      rw [hbool1, hbool2, hbrp, hbrp2]
      simp only [if_neg hf]
      rfl


set_option maxRecDepth 8192 in
/-- C8 (amended to counters at most 98): INP with no input available
leaves the whole machine state unchanged except for the transient counter
round-trip — counter unmoved, no diagnostic, registers and mailboxes
intact — and `step` reports `false`, so the machine is resumable; INP with
an input value behaves like LDA on that value: the accumulator is loaded
modulo 1000, the flag is cleared, reliability is restored, the value is
consumed and the counter advances. -/
theorem c8_inp_semantics (s : LMCState) (hpc : s.programCounter ≤ 98)
    (hv : s.mailboxValues (s.programCounter % 100) = 901) :
    (s.inputs = [] →
        (step s).1.programCounter = s.programCounter
      ∧ (step s).1.err = s.err
      ∧ (step s).1.accumulator = s.accumulator
      ∧ (step s).1.flag = s.flag
      ∧ (step s).1.isAccUndefined = s.isAccUndefined
      ∧ (step s).1.mailboxValues = s.mailboxValues
      ∧ (step s).1.inputs = s.inputs
      ∧ (step s).2 = false)
  ∧ (∀ (x : Nat) (rest : List Nat), s.inputs = x :: rest →
        (step s).1.accumulator = x % 1000
      ∧ (step s).1.flag = false
      ∧ (step s).1.isAccUndefined = false
      ∧ (step s).1.err = s.err
      ∧ (step s).1.inputs = rest
      ∧ (step s).1.programCounter = s.programCounter + 1
      ∧ (step s).2 = true) := by
  have hop : (disassembleSyntax (s.mailboxValues (s.programCounter % 100)) true).opcode
      = some 901 := by
    rw [hv, disassembleSyntax_inpc]
    rfl
  have hsm : intmod ((s.programCounter : Int) + 1) 100 = s.programCounter + 1 := by
    unfold intmod; omega
  have hstep0 := step_eq_of_decode s 901 hop
  rw [hv, dispatch_901] at hstep0
  simp only [instrINP, setPC_inputs] at hstep0
  constructor
  · intro hin
    have hstep := hstep0
    rw [hin] at hstep
    simp only [instrHLT, setPC_programCounter] at hstep
    rw [hsm] at hstep
    have hx : ((s.programCounter + 1 : Nat) : Int) - 1 = (s.programCounter : Int) := by
      push_cast; ring
    rw [hx] at hstep
    have hof : (setPC (setPC s ((s.programCounter : Int) + 1))
        (s.programCounter : Int)).programCounterOverflowed = false := by
      simp [intmod_natCast_small s.programCounter (by omega)]
    rw [hof] at hstep
    simp only [Bool.false_eq_true, false_and, if_false] at hstep
    rw [hstep]
    refine ⟨?_, rfl, rfl, rfl, rfl, rfl, rfl, ?_⟩
    · simp [intmod_natCast_small s.programCounter (by omega)]
    · simp [intmod_natCast_small s.programCounter (by omega)]
  · intro x rest hin
    have hstep := hstep0
    rw [hin] at hstep
    dsimp only at hstep
    simp only [setAccumulator_overflowed, setAccumulator_options, setPC_overflowed,
      setPC_options] at hstep
    rw [hsm] at hstep
    have hof : decide ((((s.programCounter + 1 : Nat) : Int)) ≠ (s.programCounter : Int) + 1)
        = false := by
      simp
    simp only [hof, Bool.false_eq_true, false_and, if_false] at hstep
    rw [hstep]
    refine ⟨?_, ?_, ?_, ?_, ?_, ?_, ?_⟩
    · simp [setAccumulator_accumulator]
    · simp [setAccumulator_flag]
    · simp [setAccumulator_isAccUndefined]
    · simp [setAccumulator_err]
    · rfl
    · simp [setAccumulator_programCounter, setPC_programCounter, hsm]
    · simp [setAccumulator_programCounter, setPC_programCounter, hsm]


/-- C1 counterexample: a failing load aborts with the diagnostic of the
first offending line and is not considered loaded, but the engine IS left
with a partially populated mailbox array — the first line's value remains
stored — contradicting the claim that no partially-populated mailbox image
may be left behind. -/
theorem c1_counterexample :
    (LMC2.load LMC2.fresh "DAT 1\nADD nowhere").err
        = some ⟨1, "Undefined label " ++ LMC2.sq ++ "nowhere" ++ LMC2.sq⟩
  ∧ (LMC2.load LMC2.fresh "DAT 1\nADD nowhere").isLoaded = false
  ∧ (LMC2.load LMC2.fresh "DAT 1\nADD nowhere").mailbox = [1] := by
  refine ⟨by decide, by decide, by decide⟩

/-- C2 counterexample: executing HLT (value 0) at address 99 under the
default policy raises the wraparound diagnostic — the claim states that no
such error is raised when the last instruction executed is HLT.  (The HLT
handler's counter rollback from the wrapped counter 0 to 99 itself records
an overflow, and the error handler rolls the counter back once more.) -/
theorem c2_counterexample :
    (step { initialState defaultOptions with programCounter := 99 }).1.err
      = some ⟨98, overflowMsg⟩ := by decide

/-- C3 counterexample: after a run-time diagnostic (an invalid instruction
5), the `reset` operation — which is not a load — clears the diagnostic,
contradicting the claim that only a fresh load clears it. -/
theorem c3_counterexample :
    ((step { initialState defaultOptions with mailboxValues := fun _ => 5 }).1.err ≠ none)
  ∧ (reset (step { initialState defaultOptions with
        mailboxValues := fun _ => 5 }).1).err = none := by
  refine ⟨by decide, by decide⟩

/-- C8 counterexample: INP with no input available, executed at address
99 under the default policy, sets the wraparound diagnostic and moves the
counter to 98 — the claim states that such a step leaves the counter
unmoved and sets no diagnostic in every machine state. -/
theorem c8_counterexample :
    (step { initialState defaultOptions with
              programCounter := 99
              mailboxValues := fun a => if a = 99 then 901 else 0 }).1.err
        = some ⟨98, overflowMsg⟩
  ∧ (step { initialState defaultOptions with
              programCounter := 99
              mailboxValues := fun a => if a = 99 then 901 else 0 }).1.programCounter = 98 := by
  refine ⟨by decide, by decide⟩

/-- C10 counterexample: after executing HLT at address 99 under the
default policy the counter ends at 98 (wraparound error path), so `step`
returns `true` — the claim states that `step` returns `false` after
HLT. -/
theorem c10_counterexample :
    (step { initialState defaultOptions with
              programCounter := 99
              accumulator := 7 }).2 = true := by decide


lemma addValue_err_isSome (s : LMCState) (d : Int) (h : s.err.isSome = true) :
    ((addValue s d).err).isSome = true := by
  by_cases hf : failsWhenUndefined s = true
  · rw [addValue_of_fails s d hf]
    simp
  · rw [addValue_eq s d (by simpa using hf)]
    exact h

set_option maxRecDepth 4096 in
lemma dispatch_err_isSome (t : LMCState) (op v : Nat) (h : t.err.isSome = true) :
    ((dispatch t op v).err).isSome = true := by
  unfold dispatch
  by_cases h0 : op = 0
  · rw [if_pos h0]; exact h
  rw [if_neg h0]
  by_cases h1 : op = 100
  · rw [if_pos h1]
    exact addValue_err_isSome _ _ h
  rw [if_neg h1]
  by_cases h2 : op = 200
  · rw [if_pos h2]
    exact addValue_err_isSome _ _ h
  rw [if_neg h2]
  by_cases h3 : op = 300
  · rw [if_pos h3]
    unfold instrSTA
    split
    · simp
    · exact h
  rw [if_neg h3]
  by_cases h4 : op = 500
  · rw [if_pos h4]; exact h
  rw [if_neg h4]
  by_cases h5 : op = 600
  · rw [if_pos h5]; exact h
  rw [if_neg h5]
  by_cases h6 : op = 700
  · rw [if_pos h6]
    unfold instrBRZ
    split
    · simp
    · split
      · exact h
      · exact h
  rw [if_neg h6]
  by_cases h7 : op = 800
  · rw [if_pos h7]
    unfold instrBRP
    split
    · exact h
    · exact h
  rw [if_neg h7]
  by_cases h8 : op = 901
  · rw [if_pos h8]
    unfold instrINP
    rcases ht : t.inputs with _ | ⟨x, rest⟩
    · exact h
    · exact h
  rw [if_neg h8]
  by_cases h9 : op = 902
  · rw [if_pos h9]
    unfold instrOUT
    split
    · simp
    · exact h
  rw [if_neg h9]
  by_cases h10 : op = 922
  · rw [if_pos h10]
    unfold instrOTC
    split
    · simp
    · exact h
  rw [if_neg h10]
  exact h

lemma step_err_isSome (s : LMCState) (h : s.err.isSome = true) :
    (((step s).1).err).isSome = true := by
  have hpost : ∀ t : LMCState, t.err.isSome = true →
      ((if t.programCounterOverflowed = true ∧ t.options.forbidProgramCounterOverflow = true
        then errorOp t overflowMsg else t).err).isSome = true := by
    intro t ht
    split
    · simp
    · exact ht
  unfold step
  dsimp only
  apply hpost
  split
  · simp
  · exact dispatch_err_isSome _ _ _ h

/-- C3 (amended): a set diagnostic is never cleared by `step` — stepping
is not blocked by it and a later error may replace its content, but it
stays set — while it is cleared by `reset()` as well as by a fresh
successful `load`. -/
theorem c3_diagnostic_lifecycle :
    (∀ s : LMCState, s.err.isSome = true → (((step s).1).err).isSome = true)
  ∧ (∀ s : LMCState, (reset s).err = none)
  ∧ (∀ (prev : LMC2.V2State) (program : String),
      (LMC2.load prev program).isLoaded = true → (LMC2.load prev program).err = none) := by
  refine ⟨step_err_isSome, fun s => rfl, ?_⟩
  intro prev program h
  simp only [LMC2.load] at h ⊢
  rcases hp : LMC2.pass1 ((LMC2.jsLines program).map LMC2.tokenize) 0 [] with e | ⟨labels, stripped⟩
  · rw [hp] at h
    simp at h
  · rw [hp] at h
    dsimp only at h ⊢
    rcases hq : LMC2.pass2go labels 0 stripped [] [] with ⟨mbs, code, e⟩
    rcases e with _ | e
    · rfl
    · rw [hq] at h
      simp at h

/-- Witness for the C3 theorem at a concrete diagnostic-carrying state. -/
theorem c3_diagnostic_lifecycle_witness :
    (((step (errorOp (initialState defaultOptions) unreliableMsg)).1).err).isSome = true :=
  c3_diagnostic_lifecycle.1 _ (by decide)

lemma addValue_programCounter (s : LMCState) (d : Int) (h : failsWhenUndefined s = false) :
    (addValue s d).programCounter = s.programCounter := by
  rw [addValue_eq s d h]

lemma addValue_overflowed (s : LMCState) (d : Int) (h : failsWhenUndefined s = false) :
    (addValue s d).programCounterOverflowed = s.programCounterOverflowed := by
  rw [addValue_eq s d h]

lemma addValue_options (s : LMCState) (d : Int) (h : failsWhenUndefined s = false) :
    (addValue s d).options = s.options := by
  rw [addValue_eq s d h]

/-- C2 (amended): at counter 99 under the default policy, falling off the
end raises the wraparound diagnostic — also after HLT, whose rollback ends
at counter 98 with the diagnostic set — and only an actually taken branch
(BRA always; BRP with clear flag; BRZ with reliable zero accumulator and
clear flag) re-targets the counter and avoids the error. -/
theorem c2_wraparound_semantics (s : LMCState)
    (hpc : s.programCounter = 99) (hopt : s.options = defaultOptions) :
    (∀ n : Nat, n ≤ 99 → s.mailboxValues 99 = 600 + n →
        (step s).1.err = s.err ∧ (step s).1.programCounter = n)
  ∧ (∀ n : Nat, n ≤ 99 → s.mailboxValues 99 = 800 + n → s.flag = false →
        (step s).1.err = s.err ∧ (step s).1.programCounter = n)
  ∧ (∀ n : Nat, n ≤ 99 → s.mailboxValues 99 = 700 + n → s.flag = false →
        s.accumulator = 0 → s.isAccUndefined = false →
        (step s).1.err = s.err ∧ (step s).1.programCounter = n)
  ∧ (s.mailboxValues 99 = 0 →
        (step s).1.err = some ⟨98, overflowMsg⟩ ∧ (step s).1.programCounter = 98)
  ∧ (∀ n : Nat, n ≤ 99 → s.mailboxValues 99 = 100 + n → s.isAccUndefined = false →
        (step s).1.err = some ⟨99, overflowMsg⟩ ∧ (step s).1.programCounter = 99)
  ∧ (∀ n : Nat, n ≤ 99 → s.mailboxValues 99 = 800 + n → s.flag = true →
        (step s).1.err = some ⟨99, overflowMsg⟩ ∧ (step s).1.programCounter = 99) := by
  have hm99 : s.programCounter % 100 = 99 := by rw [hpc]
  refine ⟨?_, ?_, ?_, ?_, ?_, ?_⟩
  · intro n hn hv
    have hm : s.mailboxValues (s.programCounter % 100) = 600 + n := by rw [hm99, hv]
    have hop : (disassembleSyntax (s.mailboxValues (s.programCounter % 100)) true).opcode
        = some 600 := by
      rw [hm, disassembleSyntax_bra n hn]
      rfl
    have hmod : (600 + n) % 100 = n := by omega
    have hstep := step_eq_of_decode s 600 hop
    rw [hm, dispatch_600] at hstep
    simp only [instrBRA, hmod] at hstep
    have hof : (setPC (setPC s ((s.programCounter : Int) + 1)) ((n : Nat) : Int)).programCounterOverflowed = false := by
      simp [intmod_natCast_small n hn]
    have h1 : (step s).1 = _ := congrArg Prod.fst hstep
    rw [h1]
    rw [if_neg]
    · exact ⟨rfl, by simp [intmod_natCast_small n hn]⟩
    · rw [hof]
      simp
  · intro n hn hv hflag
    have hm : s.mailboxValues (s.programCounter % 100) = 800 + n := by rw [hm99, hv]
    have hop : (disassembleSyntax (s.mailboxValues (s.programCounter % 100)) true).opcode
        = some 800 := by
      rw [hm, disassembleSyntax_brp n hn]
      rfl
    have hmod : (800 + n) % 100 = n := by omega
    have hstep := step_eq_of_decode s 800 hop
    rw [hm, dispatch_800] at hstep
    simp only [instrBRP] at hstep
    rw [if_neg (show ¬ (setPC s ((s.programCounter : Int) + 1)).flag = true by
      simp [hflag])] at hstep
    simp only [instrBRA, hmod] at hstep
    have hof : (setPC (setPC s ((s.programCounter : Int) + 1)) ((n : Nat) : Int)).programCounterOverflowed = false := by
      simp [intmod_natCast_small n hn]
    have h1 : (step s).1 = _ := congrArg Prod.fst hstep
    rw [h1]
    rw [if_neg]
    · exact ⟨rfl, by simp [intmod_natCast_small n hn]⟩
    · rw [hof]
      simp
  · intro n hn hv hflag hacc hrel
    have hm : s.mailboxValues (s.programCounter % 100) = 700 + n := by rw [hm99, hv]
    have hop : (disassembleSyntax (s.mailboxValues (s.programCounter % 100)) true).opcode
        = some 700 := by
      rw [hm, disassembleSyntax_brz n hn]
      rfl
    have hmod : (700 + n) % 100 = n := by omega
    have hfail : failsWhenUndefined (setPC s ((s.programCounter : Int) + 1)) = false := by
      simp [failsWhenUndefined, hrel]
    have hstep := step_eq_of_decode s 700 hop
    rw [hm, dispatch_700] at hstep
    simp only [instrBRZ] at hstep
    rw [if_neg (show ¬ failsWhenUndefined (setPC s ((s.programCounter : Int) + 1)) = true by
      simp [hfail])] at hstep
    rw [if_pos (show (setPC s ((s.programCounter : Int) + 1)).accumulator = 0
        ∧ ¬((setPC s ((s.programCounter : Int) + 1)).options.zeroNeedsClearedFlag = true
            ∧ (setPC s ((s.programCounter : Int) + 1)).flag = true) by
      simp [hacc, hflag])] at hstep
    simp only [instrBRA, hmod] at hstep
    have hof : (setPC (setPC s ((s.programCounter : Int) + 1)) ((n : Nat) : Int)).programCounterOverflowed = false := by
      simp [intmod_natCast_small n hn]
    have h1 : (step s).1 = _ := congrArg Prod.fst hstep
    rw [h1]
    rw [if_neg]
    · exact ⟨rfl, by simp [intmod_natCast_small n hn]⟩
    · rw [hof]
      simp
  · intro hv
    have hm : s.mailboxValues (s.programCounter % 100) = 0 := by rw [hm99, hv]
    have hop : (disassembleSyntax (s.mailboxValues (s.programCounter % 100)) true).opcode
        = some 0 := by
      rw [hm, disassembleSyntax_hltc]
      rfl
    have hstep := step_eq_of_decode s 0 hop
    rw [hm, dispatch_0] at hstep
    simp only [instrHLT] at hstep
    have h1 : (step s).1 = _ := congrArg Prod.fst hstep
    rw [h1]
    rw [if_pos]
    · simp only [errorOp_err, errorOp_programCounter, setPC_programCounter, hpc]
      exact ⟨by decide, by decide⟩
    · constructor
      · simp only [setPC_overflowed, setPC_programCounter, hpc]
        decide
      · simp only [setPC_options, hopt]
        rfl
  · intro n hn hv hrel
    have hm : s.mailboxValues (s.programCounter % 100) = 100 + n := by rw [hm99, hv]
    have hop : (disassembleSyntax (s.mailboxValues (s.programCounter % 100)) true).opcode
        = some 100 := by
      rw [hm, disassembleSyntax_add n hn]
      rfl
    have hfail : failsWhenUndefined (setPC s ((s.programCounter : Int) + 1)) = false := by
      simp [failsWhenUndefined, hrel]
    have hstep := step_eq_of_decode s 100 hop
    rw [hm, dispatch_100] at hstep
    simp only [instrADD] at hstep
    have h1 : (step s).1 = _ := congrArg Prod.fst hstep
    rw [h1]
    rw [if_pos]
    · simp only [errorOp_err, errorOp_programCounter,
        addValue_programCounter _ _ hfail, setPC_programCounter]
      simp only [hpc]
      exact ⟨by decide, by decide⟩
    · constructor
      · rw [addValue_overflowed _ _ hfail]
        simp only [setPC_overflowed, hpc]
        decide
      · rw [addValue_options _ _ hfail]
        simp only [setPC_options, hopt]
        rfl
  · intro n hn hv hflag
    have hm : s.mailboxValues (s.programCounter % 100) = 800 + n := by rw [hm99, hv]
    have hop : (disassembleSyntax (s.mailboxValues (s.programCounter % 100)) true).opcode
        = some 800 := by
      rw [hm, disassembleSyntax_brp n hn]
      rfl
    have hstep := step_eq_of_decode s 800 hop
    rw [hm, dispatch_800] at hstep
    simp only [instrBRP] at hstep
    rw [if_pos (show (setPC s ((s.programCounter : Int) + 1)).flag = true by
      simp [hflag])] at hstep
    have h1 : (step s).1 = _ := congrArg Prod.fst hstep
    rw [h1]
    rw [if_pos]
    · simp only [errorOp_err, errorOp_programCounter, setPC_programCounter, hpc]
      exact ⟨by decide, by decide⟩
    · constructor
      · simp only [setPC_overflowed, hpc]
        decide
      · simp only [setPC_options, hopt]
        rfl

/-- Witness for the C2 theorem: a taken BRA at address 99 targeting 42
leaves no diagnostic and lands the counter on 42. -/
theorem c2_wraparound_semantics_witness :
    ({ initialState defaultOptions with
         programCounter := 99
         mailboxValues := fun a => if a = 99 then 642 else 0 } : LMCState).programCounter = 99
  ∧ (step { initialState defaultOptions with
         programCounter := 99
         mailboxValues := fun a => if a = 99 then 642 else 0 }).1.err = none
  ∧ (step { initialState defaultOptions with
         programCounter := 99
         mailboxValues := fun a => if a = 99 then 642 else 0 }).1.programCounter = 42 := by
  refine ⟨rfl, ?_, ?_⟩
  · exact ((c2_wraparound_semantics _ rfl rfl).1 42 (by decide) (by decide)).1
  · exact ((c2_wraparound_semantics _ rfl rfl).1 42 (by decide) (by decide)).2

lemma errorOp_overflowed (s : LMCState) (m : String) :
    (errorOp s m).programCounterOverflowed
      = decide ((intmod ((s.programCounter : Int) - 1) 100 : Int) ≠ (s.programCounter : Int) - 1) := rfl

set_option maxRecDepth 8192 in
/-- C10 (amended to counters at most 98): `step` returns `false` exactly
when the counter did not move; with no wraparound in play that happens
after HLT, after an invalid instruction, after a run-time error (here: ADD
on an unreliable accumulator under the stop policy), after INP with no
input, and after a branch taken to the instruction's own address, while a
branch taken elsewhere moves the counter and yields `true`; and `run`
recurses on `true` and stops on `false`. -/
theorem c10_step_false_semantics (s : LMCState) (hpc : s.programCounter ≤ 98) :
    ((step s).2 = false ↔ (step s).1.programCounter = s.programCounter)
  ∧ (s.mailboxValues (s.programCounter % 100) = 0 → (step s).2 = false)
  ∧ (∀ v : Nat, 1 ≤ v → v ≤ 99 → s.mailboxValues (s.programCounter % 100) = v →
        (step s).2 = false)
  ∧ (∀ n : Nat, n ≤ 99 → s.mailboxValues (s.programCounter % 100) = 100 + n →
        s.isAccUndefined = true → s.options.stopWhenUndefined = true → (step s).2 = false)
  ∧ (s.mailboxValues (s.programCounter % 100) = 901 → s.inputs = [] → (step s).2 = false)
  ∧ (s.mailboxValues (s.programCounter % 100) = 600 + s.programCounter → (step s).2 = false)
  ∧ (∀ n : Nat, n ≤ 99 → n ≠ s.programCounter →
        s.mailboxValues (s.programCounter % 100) = 600 + n → (step s).2 = true)
  ∧ (∀ fuel : Nat, (step s).2 = false → run (fuel + 1) s = (step s).1)
  ∧ (∀ fuel : Nat, (step s).2 = true → run (fuel + 1) s = run fuel (step s).1) := by
  have hsm : intmod ((s.programCounter : Int) + 1) 100 = s.programCounter + 1 := by
    unfold intmod; omega
  have hx : intmod (((s.programCounter + 1 : Nat) : Int) - 1) 100 = s.programCounter := by
    unfold intmod; omega
  refine ⟨?_, ?_, ?_, ?_, ?_, ?_, ?_, ?_, ?_⟩
  · rw [step_bool]
    simp only [decide_eq_false_iff_not, ne_eq, not_not]
    exact eq_comm
  · intro hv
    have hop : (disassembleSyntax (s.mailboxValues (s.programCounter % 100)) true).opcode
        = some 0 := by
      rw [hv, disassembleSyntax_hltc]
      rfl
    have hstep := step_eq_of_decode s 0 hop
    rw [hv, dispatch_0] at hstep
    simp only [instrHLT, setPC_programCounter, hsm] at hstep
    have h2 : (step s).2 = _ := congrArg Prod.snd hstep
    rw [h2]
    rw [if_neg]
    · simp only [setPC_programCounter, hx]
      simp
    · rintro ⟨ha, _⟩
      simp only [setPC_overflowed, hx] at ha
      rw [decide_eq_true_eq] at ha
      exact ha (by push_cast; ring)
  · intro v h1v h2v hv
    have hop : (disassembleSyntax (s.mailboxValues (s.programCounter % 100)) true).opcode
        = none := by
      rw [hv, disassembleSyntax_low v h1v h2v]
      rfl
    have hstep := step_eq_of_invalid s hop
    rw [hv] at hstep
    simp only [errorOp_programCounter, errorOp_overflowed, errorOp_options,
      setPC_programCounter, setPC_options, hsm] at hstep
    have h2 : (step s).2 = _ := congrArg Prod.snd hstep
    rw [h2]
    rw [if_neg]
    · simp only [errorOp_programCounter, setPC_programCounter, hsm, hx]
      simp
    · rintro ⟨ha, _⟩
      rw [hx, decide_eq_true_eq] at ha
      exact ha (by push_cast; ring)
  · intro n hn hv hu hpol
    have hop : (disassembleSyntax (s.mailboxValues (s.programCounter % 100)) true).opcode
        = some 100 := by
      rw [hv, disassembleSyntax_add n hn]
      rfl
    have hfail : failsWhenUndefined (setPC s ((s.programCounter : Int) + 1)) = true := by
      simp [failsWhenUndefined, hu, hpol]
    have hstep := step_eq_of_decode s 100 hop
    rw [hv, dispatch_100] at hstep
    simp only [instrADD] at hstep
    rw [addValue_of_fails _ _ hfail] at hstep
    simp only [errorOp_programCounter, errorOp_overflowed, errorOp_options,
      setPC_programCounter, setPC_options, hsm] at hstep
    have h2 : (step s).2 = _ := congrArg Prod.snd hstep
    rw [h2]
    rw [if_neg]
    · simp only [errorOp_programCounter, setPC_programCounter, hsm, hx]
      simp
    · rintro ⟨ha, _⟩
      rw [hx, decide_eq_true_eq] at ha
      exact ha (by push_cast; ring)
  · intro hv hin
    have hop : (disassembleSyntax (s.mailboxValues (s.programCounter % 100)) true).opcode
        = some 901 := by
      rw [hv, disassembleSyntax_inpc]
      rfl
    have hstep := step_eq_of_decode s 901 hop
    rw [hv, dispatch_901] at hstep
    simp only [instrINP, setPC_inputs, hin] at hstep
    simp only [instrHLT, setPC_programCounter, hsm] at hstep
    have h2 : (step s).2 = _ := congrArg Prod.snd hstep
    rw [h2]
    rw [if_neg]
    · simp only [setPC_programCounter, hx]
      simp
    · rintro ⟨ha, _⟩
      simp only [setPC_overflowed, hx] at ha
      rw [decide_eq_true_eq] at ha
      exact ha (by push_cast; ring)
  · intro hv
    have hop : (disassembleSyntax (s.mailboxValues (s.programCounter % 100)) true).opcode
        = some 600 := by
      rw [hv, disassembleSyntax_bra s.programCounter (by omega)]
      rfl
    have hmod : (600 + s.programCounter) % 100 = s.programCounter := by omega
    have hstep := step_eq_of_decode s 600 hop
    rw [hv, dispatch_600] at hstep
    simp only [instrBRA, hmod] at hstep
    have h2 : (step s).2 = _ := congrArg Prod.snd hstep
    rw [h2]
    rw [if_neg]
    · simp only [setPC_programCounter, intmod_natCast_small s.programCounter (by omega)]
      simp
    · rintro ⟨ha, _⟩
      simp only [setPC_overflowed,
        intmod_natCast_small s.programCounter (by omega)] at ha
      rw [decide_eq_true_eq] at ha
      exact ha rfl
  · intro n hn hne hv
    have hop : (disassembleSyntax (s.mailboxValues (s.programCounter % 100)) true).opcode
        = some 600 := by
      rw [hv, disassembleSyntax_bra n hn]
      rfl
    have hmod : (600 + n) % 100 = n := by omega
    have hstep := step_eq_of_decode s 600 hop
    rw [hv, dispatch_600] at hstep
    simp only [instrBRA, hmod] at hstep
    have h2 : (step s).2 = _ := congrArg Prod.snd hstep
    rw [h2]
    rw [if_neg]
    · simp only [setPC_programCounter, intmod_natCast_small n hn]
      simp
      omega
    · rintro ⟨ha, _⟩
      simp only [setPC_overflowed, intmod_natCast_small n hn] at ha
      rw [decide_eq_true_eq] at ha
      exact ha rfl
  · intro fuel hb
    have he : step s = ((step s).1, false) := by rw [← hb]
    rw [run, he]
  · intro fuel hb
    have he : step s = ((step s).1, true) := by rw [← hb]
    rw [run, he]

/-- Witness for the C10 theorem: a self-branch `BRA 0` in mailbox 0 makes
`step` report `false`. -/
theorem c10_step_false_semantics_witness :
    ({ initialState defaultOptions with
         mailboxValues := fun a => if a = 0 then 600 else 0 } : LMCState).programCounter ≤ 98
  ∧ (step { initialState defaultOptions with
         mailboxValues := fun a => if a = 0 then 600 else 0 }).2 = false := by
  refine ⟨by decide, ?_⟩
  exact (c10_step_false_semantics _ (by decide)).2.2.2.2.2.1 (by decide)

lemma inv_setPC (s : LMCState) (x : Int) (h : machineInv s) : machineInv (setPC s x) := by
  obtain ⟨h1, h2, h3⟩ := h
  refine ⟨h1, ?_, h3⟩
  simp only [setPC_programCounter]
  have := intmod_100_lt x
  omega

lemma inv_setAccumulator (s : LMCState) (x : Int) (h : machineInv s) :
    machineInv (setAccumulator s x) := by
  obtain ⟨h1, h2, h3⟩ := h
  refine ⟨?_, h2, h3⟩
  simp only [setAccumulator_accumulator]
  have := intmod_1000_lt x
  omega

lemma inv_setMailbox (s : LMCState) (a : Nat) (x : Int) (h : machineInv s) :
    machineInv (setMailbox s a x) := by
  obtain ⟨h1, h2, h3⟩ := h
  refine ⟨h1, h2, ?_⟩
  intro b
  show (if b = a % 100 then intmod x 1000 else s.mailboxValues b) ≤ 999
  split
  · have := intmod_1000_lt x
    omega
  · exact h3 b

lemma inv_errorOp (s : LMCState) (m : String) (h : machineInv s) :
    machineInv (errorOp s m) := by
  obtain ⟨h1, h2, h3⟩ := h
  refine ⟨h1, ?_, h3⟩
  simp only [errorOp_programCounter]
  have := intmod_100_lt ((s.programCounter : Int) - 1)
  omega

lemma inv_addValue (s : LMCState) (d : Int) (h : machineInv s) :
    machineInv (addValue s d) := by
  by_cases hf : failsWhenUndefined s = true
  · rw [addValue_of_fails s d hf]
    exact inv_errorOp _ _ h
  · rw [addValue_eq s d (by simpa using hf)]
    obtain ⟨h1, h2, h3⟩ := h
    refine ⟨?_, h2, h3⟩
    show intmod ((s.accumulator : Int) + d) 1000 ≤ 999
    have := intmod_1000_lt ((s.accumulator : Int) + d)
    omega

lemma inv_instrHLT (s : LMCState) (h : machineInv s) : machineInv (instrHLT s) :=
  inv_setPC _ _ h

lemma inv_instrBRA (s : LMCState) (v : Nat) (h : machineInv s) : machineInv (instrBRA s v) :=
  inv_setPC _ _ h

lemma inv_instrBRZ (s : LMCState) (v : Nat) (h : machineInv s) : machineInv (instrBRZ s v) := by
  unfold instrBRZ
  split
  · exact inv_errorOp _ _ h
  · split
    · exact inv_instrBRA _ _ h
    · exact h

lemma inv_instrBRP (s : LMCState) (v : Nat) (h : machineInv s) : machineInv (instrBRP s v) := by
  unfold instrBRP
  split
  · exact h
  · exact inv_instrBRA _ _ h

set_option maxRecDepth 4096 in
lemma inv_instrINP (s : LMCState) (h : machineInv s) : machineInv (instrINP s) := by
  unfold instrINP
  rcases ht : s.inputs with _ | ⟨x, rest⟩
  · exact inv_instrHLT _ h
  · obtain ⟨h1, h2, h3⟩ := h
    dsimp only
    refine ⟨?_, h2, h3⟩
    show intmod (x : Int) 1000 ≤ 999
    have := intmod_1000_lt (x : Int)
    omega

lemma inv_instrSTA (s : LMCState) (v : Nat) (h : machineInv s) : machineInv (instrSTA s v) := by
  unfold instrSTA
  split
  · exact inv_errorOp _ _ h
  · exact inv_setMailbox _ _ _ h

lemma inv_instrOUT (s : LMCState) (v : Nat) (h : machineInv s) : machineInv (instrOUT s) := by
  unfold instrOUT
  split
  · exact inv_errorOp _ _ h
  · exact h

lemma inv_instrOTC (s : LMCState) (v : Nat) (h : machineInv s) : machineInv (instrOTC s) := by
  unfold instrOTC
  split
  · exact inv_errorOp _ _ h
  · exact h

lemma inv_dispatch (t : LMCState) (op v : Nat) (h : machineInv t) :
    machineInv (dispatch t op v) := by
  unfold dispatch
  by_cases h0 : op = 0
  · rw [if_pos h0]; exact inv_instrHLT _ h
  rw [if_neg h0]
  by_cases h1 : op = 100
  · rw [if_pos h1]; exact inv_addValue _ _ h
  rw [if_neg h1]
  by_cases h2 : op = 200
  · rw [if_pos h2]; exact inv_addValue _ _ h
  rw [if_neg h2]
  by_cases h3 : op = 300
  · rw [if_pos h3]; exact inv_instrSTA _ _ h
  rw [if_neg h3]
  by_cases h4 : op = 500
  · rw [if_pos h4]; exact inv_setAccumulator _ _ h
  rw [if_neg h4]
  by_cases h5 : op = 600
  · rw [if_pos h5]; exact inv_instrBRA _ _ h
  rw [if_neg h5]
  by_cases h6 : op = 700
  · rw [if_pos h6]; exact inv_instrBRZ _ _ h
  rw [if_neg h6]
  by_cases h7 : op = 800
  · rw [if_pos h7]; exact inv_instrBRP _ _ h
  rw [if_neg h7]
  by_cases h8 : op = 901
  · rw [if_pos h8]; exact inv_instrINP _ h
  rw [if_neg h8]
  by_cases h9 : op = 902
  · rw [if_pos h9]; exact inv_instrOUT _ v h
  rw [if_neg h9]
  by_cases h10 : op = 922
  · rw [if_pos h10]; exact inv_instrOTC _ v h
  rw [if_neg h10]
  exact h

lemma inv_step (s : LMCState) (h : machineInv s) : machineInv (step s).1 := by
  have hpost : ∀ t : LMCState, machineInv t →
      machineInv (if t.programCounterOverflowed = true
          ∧ t.options.forbidProgramCounterOverflow = true
        then errorOp t overflowMsg else t) := by
    intro t ht
    split
    · exact inv_errorOp _ _ ht
    · exact ht
  unfold step
  dsimp only
  apply hpost
  split
  · exact inv_errorOp _ _ (inv_setPC _ _ h)
  · exact inv_dispatch _ _ _ (inv_setPC _ _ h)

lemma inv_reset (s : LMCState) (h : machineInv s) : machineInv (reset s) := by
  obtain ⟨h1, h2, h3⟩ := h
  exact ⟨h1, by show intmod 0 100 ≤ 99; unfold intmod; omega, h3⟩

lemma inv_run (fuel : Nat) (s : LMCState) (h : machineInv s) : machineInv (run fuel s) := by
  induction fuel generalizing s with
  | zero => exact h
  | succ n ih =>
    rw [run]
    have hs := inv_step s h
    rcases hb : step s with ⟨s1, b⟩
    rw [hb] at hs
    rcases b with _ | _
    · exact hs
    · exact ih s1 hs

/-- C9: the machine-state invariant — accumulator in 0..999, counter in
0..99, every mailbox value in 0..999 — holds of a freshly constructed
machine and is preserved by every mutation: by the three normalizing
setters, by `step` (for any input values the state carries), by `reset`,
and hence by any number of `run` steps. -/
theorem c9_machine_invariant :
    (∀ opts : Options, machineInv (initialState opts))
  ∧ (∀ (s : LMCState) (x : Int), machineInv s → machineInv (setAccumulator s x))
  ∧ (∀ (s : LMCState) (x : Int), machineInv s → machineInv (setPC s x))
  ∧ (∀ (s : LMCState) (a : Nat) (x : Int), machineInv s → machineInv (setMailbox s a x))
  ∧ (∀ s : LMCState, machineInv s → machineInv (step s).1)
  ∧ (∀ s : LMCState, machineInv s → machineInv (reset s))
  ∧ (∀ (fuel : Nat) (s : LMCState), machineInv s → machineInv (run fuel s)) := by
  refine ⟨?_, ?_, ?_, ?_, ?_, ?_, ?_⟩
  · intro opts
    exact ⟨Nat.zero_le _, Nat.zero_le _, fun a => Nat.zero_le _⟩
  · intro s x h
    exact inv_setAccumulator s x h
  · intro s x h
    exact inv_setPC s x h
  · intro s a x h
    exact inv_setMailbox s a x h
  · intro s h
    exact inv_step s h
  · intro s h
    exact inv_reset s h
  · intro fuel s h
    exact inv_run fuel s h

/-- Witness for the C9 theorem: the invariant holds after one step of a
fresh machine. -/
theorem c9_machine_invariant_witness :
    machineInv (initialState defaultOptions)
  ∧ machineInv (step (initialState defaultOptions)).1 := by
  constructor
  · exact ⟨Nat.zero_le _, Nat.zero_le _, fun a => Nat.zero_le _⟩
  · exact c9_machine_invariant.2.2.2.2.1 _
      ⟨Nat.zero_le _, Nat.zero_le _, fun a => Nat.zero_le _⟩

lemma assembleV1_value (symLookup : String → Option Nat) (m : String) (a : Arg) :
    (assembleV1 symLookup m a).1 =
      ((mnemonicLookup (if upperStr m = "" then "DAT" else upperStr m)).getD datD).opcode.getD 0
      + (match a with
         | Arg.noA => 0
         | Arg.num n => n
         | Arg.lab x => (symLookup (upperStr x)).getD 0) := rfl

lemma disassembleV1_desc (symTab : Nat → Option String) (opts : Options) (v : Nat)
    (c r : Bool) : (disassembleV1 symTab opts v c r).desc = disassembleSyntax v c := rfl

lemma disassembleV1_argumentText (symTab : Nat → Option String) (opts : Options) (v : Nat)
    (c r : Bool) :
    (disassembleV1 symTab opts v c r).argumentText =
      (match (if (disassembleSyntax v c).arg ≠ 0
              then some (v - (disassembleSyntax v c).opcode.getD 0) else none) with
       | none => Arg.noA
       | some a =>
         match symTab a with
         | some lbl =>
           if (disassembleSyntax v c).mnemonic ≠ "DAT" ∨ r = true then Arg.lab lbl
           else Arg.num a
         | none => Arg.num a) := rfl

lemma roundtrip_dat (symLookup : String → Option Nat) (symTab : Nat → Option String)
    (opts : Options) (v : Nat) (c r : Bool)
    (hcoh : ∀ (a : Nat) (l : String), symTab a = some l → symLookup (upperStr l) = some a)
    (hsyn : disassembleSyntax v c = datD) :
    (assembleV1 symLookup (disassembleV1 symTab opts v c r).desc.mnemonic
        (disassembleV1 symTab opts v c r).argumentText).1 = v := by
  rw [assembleV1_value, disassembleV1_desc, disassembleV1_argumentText, hsyn]
  rw [if_pos (show datD.arg ≠ 0 by decide)]
  rw [show (mnemonicLookup (if upperStr datD.mnemonic = "" then "DAT"
      else upperStr datD.mnemonic)).getD datD = datD by decide]
  rw [show datD.opcode.getD 0 = 0 from rfl]
  simp only [Nat.sub_zero]
  rcases ht : symTab v with _ | lbl
  · simp [ht]
  · rcases r with _ | _
    · simp [ht, datD]
    · simp [ht, hcoh v lbl ht]

lemma roundtrip_code (symLookup : String → Option Nat) (symTab : Nat → Option String)
    (opts : Options) (r : Bool)
    (hcoh : ∀ (a : Nat) (l : String), symTab a = some l → symLookup (upperStr l) = some a)
    (b n : Nat) (d : InstrDesc)
    (hsyn : disassembleSyntax (b + n) true = d)
    (hb : d.opcode = some b) (ha : ¬ d.arg = 0) (hmn : ¬ d.mnemonic = "DAT")
    (hm : (mnemonicLookup (if upperStr d.mnemonic = "" then "DAT"
        else upperStr d.mnemonic)).getD datD = d) :
    (assembleV1 symLookup (disassembleV1 symTab opts (b + n) true r).desc.mnemonic
        (disassembleV1 symTab opts (b + n) true r).argumentText).1 = b + n := by
  rw [assembleV1_value, disassembleV1_desc, disassembleV1_argumentText, hsyn, hm, hb]
  rw [if_pos (show d.arg ≠ 0 from ha)]
  simp only [Option.getD_some, Nat.add_sub_cancel_left]
  rcases ht : symTab n with _ | lbl
  · simp [ht]
  · simp [ht, hmn, hcoh n lbl ht]

lemma roundtrip_exact0 (symLookup : String → Option Nat) (symTab : Nat → Option String)
    (opts : Options) (r : Bool) (v : Nat) (d : InstrDesc)
    (hsyn : disassembleSyntax v true = d)
    (hb : d.opcode = some v) (ha : d.arg = 0)
    (hm : (mnemonicLookup (if upperStr d.mnemonic = "" then "DAT"
        else upperStr d.mnemonic)).getD datD = d) :
    (assembleV1 symLookup (disassembleV1 symTab opts v true r).desc.mnemonic
        (disassembleV1 symTab opts v true r).argumentText).1 = v := by
  rw [assembleV1_value, disassembleV1_desc, disassembleV1_argumentText, hsyn, hm, hb]
  rw [if_neg (show ¬ d.arg ≠ 0 by simp [ha])]
  simp

/-- C4: for every in-range memory value, disassembling it (with any
symbol table) and reassembling the resulting canonical mnemonic and
operand text (under a symbol lookup coherent with that table) reproduces
exactly the original value — so reassembling a disassembled image yields
an identical memory image. -/
theorem c4_roundtrip (symLookup : String → Option Nat) (symTab : Nat → Option String)
    (opts : Options)
    (hcoh : ∀ (a : Nat) (l : String), symTab a = some l → symLookup (upperStr l) = some a) :
    ∀ v : Nat, v ≤ 999 → ∀ c r : Bool,
      (assembleV1 symLookup (disassembleV1 symTab opts v c r).desc.mnemonic
          (disassembleV1 symTab opts v c r).argumentText).1 = v := by
  intro v hv c r
  rcases c with _ | _
  · exact roundtrip_dat symLookup symTab opts v false r hcoh rfl
  by_cases h0 : v = 0
  · subst h0
    exact roundtrip_exact0 symLookup symTab opts r 0 hltD disassembleSyntax_hltc rfl rfl
      (by decide)
  by_cases h901 : v = 901
  · subst h901
    exact roundtrip_exact0 symLookup symTab opts r 901 inpD disassembleSyntax_inpc rfl rfl
      (by decide)
  by_cases h902 : v = 902
  · subst h902
    exact roundtrip_exact0 symLookup symTab opts r 902 outD disassembleSyntax_outc rfl rfl
      (by decide)
  by_cases h922 : v = 922
  · subst h922
    exact roundtrip_exact0 symLookup symTab opts r 922 otcD disassembleSyntax_otcc rfl rfl
      (by decide)
  by_cases hlow : v ≤ 99
  · exact roundtrip_dat symLookup symTab opts v true r hcoh
      (disassembleSyntax_low v (by omega) hlow)
  by_cases h199 : v ≤ 199
  · obtain ⟨n, hn, rfl⟩ : ∃ n, n ≤ 99 ∧ v = 100 + n := ⟨v - 100, by omega, by omega⟩
    exact roundtrip_code symLookup symTab opts r hcoh 100 n addD
      (disassembleSyntax_add n hn) rfl (by decide) (by decide) (by decide)
  by_cases h299 : v ≤ 299
  · obtain ⟨n, hn, rfl⟩ : ∃ n, n ≤ 99 ∧ v = 200 + n := ⟨v - 200, by omega, by omega⟩
    exact roundtrip_code symLookup symTab opts r hcoh 200 n subD
      (disassembleSyntax_sub n hn) rfl (by decide) (by decide) (by decide)
  by_cases h399 : v ≤ 399
  · obtain ⟨n, hn, rfl⟩ : ∃ n, n ≤ 99 ∧ v = 300 + n := ⟨v - 300, by omega, by omega⟩
    exact roundtrip_code symLookup symTab opts r hcoh 300 n staD
      (disassembleSyntax_sta n hn) rfl (by decide) (by decide) (by decide)
  by_cases h499 : v ≤ 499
  · obtain ⟨n, hn, rfl⟩ : ∃ n, n ≤ 99 ∧ v = 400 + n := ⟨v - 400, by omega, by omega⟩
    exact roundtrip_dat symLookup symTab opts (400 + n) true r hcoh
      (disassembleSyntax_400 n hn)
  by_cases h599 : v ≤ 599
  · obtain ⟨n, hn, rfl⟩ : ∃ n, n ≤ 99 ∧ v = 500 + n := ⟨v - 500, by omega, by omega⟩
    exact roundtrip_code symLookup symTab opts r hcoh 500 n ldaD
      (disassembleSyntax_lda n hn) rfl (by decide) (by decide) (by decide)
  by_cases h699 : v ≤ 699
  · obtain ⟨n, hn, rfl⟩ : ∃ n, n ≤ 99 ∧ v = 600 + n := ⟨v - 600, by omega, by omega⟩
    exact roundtrip_code symLookup symTab opts r hcoh 600 n braD
      (disassembleSyntax_bra n hn) rfl (by decide) (by decide) (by decide)
  by_cases h799 : v ≤ 799
  · obtain ⟨n, hn, rfl⟩ : ∃ n, n ≤ 99 ∧ v = 700 + n := ⟨v - 700, by omega, by omega⟩
    exact roundtrip_code symLookup symTab opts r hcoh 700 n brzD
      (disassembleSyntax_brz n hn) rfl (by decide) (by decide) (by decide)
  by_cases h899 : v ≤ 899
  · obtain ⟨n, hn, rfl⟩ : ∃ n, n ≤ 99 ∧ v = 800 + n := ⟨v - 800, by omega, by omega⟩
    exact roundtrip_code symLookup symTab opts r hcoh 800 n brpD
      (disassembleSyntax_brp n hn) rfl (by decide) (by decide) (by decide)
  obtain ⟨n, hn, rfl⟩ : ∃ n, n ≤ 99 ∧ v = 900 + n := ⟨v - 900, by omega, by omega⟩
  exact roundtrip_dat symLookup symTab opts (900 + n) true r hcoh
    (disassembleSyntax_900 n hn (by omega) (by omega) (by omega))

/-- Witness for the C4 theorem: the ADD instruction 150 survives the
round trip. -/
theorem c4_roundtrip_witness :
    (150 : Nat) ≤ 999
  ∧ (assembleV1 (fun _ => none)
        (disassembleV1 (fun _ => none) defaultOptions 150 true false).desc.mnemonic
        (disassembleV1 (fun _ => none) defaultOptions 150 true false).argumentText).1 = 150 :=
  ⟨by decide,
   c4_roundtrip (fun _ => none) (fun _ => none) defaultOptions
     (fun a l h => Option.noConfusion h) 150 (by decide) true false⟩

/-- C1 (amended): the second variant's assembly does fail fast — the
symbol-resolution pass stops at the first line with a diagnostic, reports
that line's message at that line's address, and a failed `load` leaves the
machine not loaded — but the mailbox array retains the image of the lines
assembled before the failure, so a partial memory image does remain. -/
theorem c1_fail_fast :
    (∀ (labels : List (String × Nat)) (address : Nat) (rest : List (List String))
        (mbs : List Int) (code : List Nat) (words : List String) (msg : String)
        (stored : Option Int),
      LMC2.assembleLine labels words = Except.error (msg, stored) →
      LMC2.pass2go labels address (words :: rest) mbs code
        = (mbs ++ stored.toList, code, some ⟨address, msg⟩))
  ∧ (∀ (labels : List (String × Nat)) (address : Nat) (rest : List (List String))
        (mbs : List Int) (code : List Nat) (words : List String) (value : Int)
        (isCode : Bool),
      LMC2.assembleLine labels words = Except.ok (value, isCode) →
      LMC2.pass2go labels address (words :: rest) mbs code
        = LMC2.pass2go labels (address + 1) rest (mbs ++ [value])
            (if isCode = true then code ++ [address] else code))
  ∧ (∀ (prev : LMC2.V2State) (program : String) (labels : List (String × Nat))
        (stripped : List (List String)),
      LMC2.pass1 ((LMC2.jsLines program).map LMC2.tokenize) 0 []
          = Except.ok (labels, stripped) →
      ∀ (mbs : List Int) (code : List Nat) (e : LMC2.AsmErr),
        LMC2.pass2go labels 0 stripped [] [] = (mbs, code, some e) →
        LMC2.load prev program =
          { prev with
              mailbox := mbs
              codeMailboxes := code
              labels := labels
              err := some e
              isLoaded := false }) := by
  refine ⟨?_, ?_, ?_⟩
  · intro labels address rest mbs code words msg stored h
    simp only [LMC2.pass2go]
    rw [h]
  · intro labels address rest mbs code words value isCode h
    simp only [LMC2.pass2go]
    rw [h]
  · intro prev program labels stripped hp mbs code e hq
    simp only [LMC2.load]
    rw [hp]
    dsimp only
    rw [hq]

/-- Witness for the C1 theorem: `DAT 7` then `ADD oops` — the undefined
label stops assembly at line 1, the machine is not loaded, and mailbox 0
keeps the already-assembled `7`. -/
theorem c1_fail_fast_witness :
    LMC2.pass1 ((LMC2.jsLines "DAT 7\nADD oops").map LMC2.tokenize) 0 []
        = Except.ok ([], [["DAT", "7"], ["ADD", "oops"]])
  ∧ LMC2.pass2go [] 0 [["DAT", "7"], ["ADD", "oops"]] [] []
        = ([7], [], some ⟨1, "Undefined label " ++ LMC2.sq ++ "oops" ++ LMC2.sq⟩)
  ∧ LMC2.load LMC2.fresh "DAT 7\nADD oops" =
      { LMC2.fresh with
          mailbox := [7]
          codeMailboxes := []
          labels := []
          err := some ⟨1, "Undefined label " ++ LMC2.sq ++ "oops" ++ LMC2.sq⟩
          isLoaded := false } := by
  refine ⟨rfl, by decide, ?_⟩
  exact c1_fail_fast.2.2 LMC2.fresh "DAT 7\nADD oops" [] [["DAT", "7"], ["ADD", "oops"]]
    rfl [7] [] ⟨1, "Undefined label " ++ LMC2.sq ++ "oops" ++ LMC2.sq⟩ (by decide)

/-- Witness for the C5 theorem: the spec example — accumulator 999, `ADD`
of a mailbox holding 2 — yields accumulator 1. -/
theorem c5_add_semantics_witness :
    (5 : Nat) ≤ 99
  ∧ ({ initialState defaultOptions with
         accumulator := 999
         isAccUndefined := false
         mailboxValues := fun a => if a = 0 then 105 else if a = 5 then 2 else 0 } :
        LMCState).isAccUndefined = false
  ∧ (step { initialState defaultOptions with
         accumulator := 999
         isAccUndefined := false
         mailboxValues := fun a => if a = 0 then 105 else if a = 5 then 2 else 0 }).1.accumulator
      = 1 := by
  refine ⟨by decide, by decide, ?_⟩
  exact (c5_add_semantics _ 5 (by decide) (by decide) (by decide)).1

/-- Witness for the C6 theorem: the spec example — accumulator 0, `SUB`
of a mailbox holding 1 — yields accumulator 999 with the flag set. -/
theorem c6_sub_semantics_witness :
    (step { initialState defaultOptions with
         accumulator := 0
         isAccUndefined := false
         mailboxValues := fun a => if a = 0 then 205 else if a = 5 then 1 else 0 }).1.accumulator
      = 999
  ∧ (step { initialState defaultOptions with
         accumulator := 0
         isAccUndefined := false
         mailboxValues := fun a => if a = 0 then 205 else if a = 5 then 1 else 0 }).1.flag
      = true := by
  constructor
  · exact (c6_sub_semantics _ 5 (by decide) (by decide) (by decide) (by decide)).1
  · exact ((c6_sub_semantics _ 5 (by decide) (by decide) (by decide) (by decide)).2.1
      (by decide)).1

/-- Witness for the C7 theorem: with a clear flag, `BRP 42` branches to
address 42. -/
theorem c7_brp_semantics_witness :
    ({ initialState defaultOptions with
         mailboxValues := fun a => if a = 0 then 842 else 0 } : LMCState).flag = false
  ∧ (step { initialState defaultOptions with
         mailboxValues := fun a => if a = 0 then 842 else 0 }).1.programCounter = 42 := by
  refine ⟨by decide, ?_⟩
  exact ((c7_brp_semantics _ 42 (by decide) (by decide)).1 (by decide)).1

/-- Witness for the C8 theorem: `INP` at address 0 with an empty input
queue leaves the counter at 0 and makes `step` report `false`. -/
theorem c8_inp_semantics_witness :
    ({ initialState defaultOptions with
         mailboxValues := fun a => if a = 0 then 901 else 0 } : LMCState).programCounter ≤ 98
  ∧ (step { initialState defaultOptions with
         mailboxValues := fun a => if a = 0 then 901 else 0 }).1.programCounter = 0
  ∧ (step { initialState defaultOptions with
         mailboxValues := fun a => if a = 0 then 901 else 0 }).2 = false := by
  refine ⟨by decide, ?_, ?_⟩
  · exact ((c8_inp_semantics _ (by decide) (by decide)).1 rfl).1
  · exact ((c8_inp_semantics _ (by decide) (by decide)).1 rfl).2.2.2.2.2.2.2

end LMCSpec
